import Mathlib

/-!
Verification development for the Forge partitioned append-only log storage
engine.  The definitions below are a shallow embedding of the Rust sources:

  * src/protocol/types.rs        (wire codec primitives)
  * src/shared/byte.rs           (nullable byte sequences)
  * src/core/domain/record.rs    (Record / Header codec)
  * src/core/domain/record_batch.rs (RecordBatch codec, CRC)
  * src/adapters/driven/storage/segment.rs (Segment, index binary search, reads)
  * src/adapters/driven/storage/log.rs     (PartitionLog, retention)

Machine integers are modelled as Nat (unsigned) or Int (signed) with explicit
reduction modulo 2^w at every point where the Rust code can wrap (release-mode
semantics: arithmetic overflow wraps).  Byte buffers are lists of Nat < 256.
Filesystem writes are modelled as always succeeding; the file contents owned
by a segment are carried inside the `Segment` structure.
-/

set_option maxRecDepth 100000

instance {ε α : Type} [DecidableEq ε] [DecidableEq α] : DecidableEq (Except ε α) :=
  fun a b =>
    match a, b with
    | .error e, .error f =>
      if h : e = f then .isTrue (by rw [h]) else .isFalse (by intro hc; cases hc; exact h rfl)
    | .error _, .ok _ => .isFalse (by intro hc; cases hc)
    | .ok _, .error _ => .isFalse (by intro hc; cases hc)
    | .ok x, .ok y =>
      if h : x = y then .isTrue (by rw [h]) else .isFalse (by intro hc; cases hc; exact h rfl)

/-- Error propagation of the Rust `?` operator on decoder results: an
`Err` short-circuits, an `Ok (value, rest)` feeds the continuation. -/
def dbind {A B : Type} :
    Except String (A × List Nat) → (A → List Nat → Except String B) → Except String B
  | .error e, _ => .error e
  | .ok (a, rest), f => f a rest

/-- Error propagation of the Rust `?` operator on a plain `Result`. -/
def ebind {A B : Type} : Except String A → (A → Except String B) → Except String B
  | .error e, _ => .error e
  | .ok a, f => f a

/-- Rust's `Option::ok_or`. -/
def okOr {A : Type} (o : Option A) (msg : String) : Except String A :=
  match o with
  | none => .error msg
  | some a => .ok a

/-- `n` interpreted modulo `2^w` as an unsigned machine integer
(the result of a Rust `as uN` cast, or of wrapping unsigned arithmetic). -/
def wrapU (w : Nat) (n : Int) : Nat := (n % ((2:Int) ^ w)).toNat

/-- `n` reduced into the signed two's-complement range `[-2^(w-1), 2^(w-1))`
(the result of a Rust `as iN` cast, or of wrapping signed arithmetic). -/
def wrapS (w : Nat) (n : Int) : Int :=
  let m := n % ((2:Int) ^ w)
  if m < (2:Int) ^ (w - 1) then m else m - (2:Int) ^ w

/-- Reinterpret an unsigned `w`-bit value as a signed two's-complement one. -/
def fromU (w : Nat) (n : Nat) : Int :=
  if (n : Int) < (2:Int) ^ (w - 1) then (n : Int) else (n : Int) - (2:Int) ^ w

/-- `n` lies in the signed `w`-bit range. -/
def inRangeS (w : Nat) (n : Int) : Prop :=
  -(2:Int) ^ (w - 1) ≤ n ∧ n < (2:Int) ^ (w - 1)

instance (w : Nat) (n : Int) : Decidable (inRangeS w n) := by
  unfold inRangeS; infer_instance

/-- Big-endian byte serialization of the low `w` bytes of `n`
(`put_i8` / `put_i16` / `put_i32` / `put_i64` / `put_u32` in `bytes`). -/
def beBytes : Nat → Nat → List Nat
  | 0, _ => []
  | w + 1, n => ((n >>> (8 * w)) % 256) :: beBytes w n

/-- Big-endian accumulation of a byte list onto `acc`. -/
def fromBeAux (acc : Nat) : List Nat → Nat
  | [] => acc
  | b :: rest => fromBeAux (acc * 256 + b) rest

/-- Big-endian value of a byte list (`from_be_bytes`). -/
def fromBe (l : List Nat) : Nat := fromBeAux 0 l

/-- Read `w` raw bytes from the front of the buffer; fails like the
`buf.remaining() < size` checks in `protocol/types.rs`. -/
def decTake (w : Nat) (msg : String) (l : List Nat) :
    Except String (List Nat × List Nat) :=
  if l.length < w then .error msg else .ok (l.take w, l.drop w)

/-- `iN::decode` for the fixed-width big-endian signed integers
(`impl_primitive!` in `protocol/types.rs`); `w` is the width in bytes. -/
def decSigned (w : Nat) (msg : String) (l : List Nat) :
    Except String (Int × List Nat) :=
  dbind (decTake w msg l) fun bytes rest => .ok (fromU (8 * w) (fromBe bytes), rest)

/-- `u32::decode`.  Modelled from the spec: the `u32` instance of the `Type`
trait is not among the provided source files (only its uses in
`record_batch.rs` and `segment.rs` are); the spec fixes it as a fixed-width
big-endian 4-byte integer ("crc | u32 (big-endian)"). -/
def decU32 (msg : String) (l : List Nat) : Except String (Nat × List Nat) :=
  dbind (decTake 4 msg l) fun bytes rest => .ok (fromBe bytes, rest)

/-- Encode a signed `w`-byte integer big-endian (`put_iN`). -/
def encSigned (w : Nat) (n : Int) : List Nat := beBytes w (wrapU (8 * w) n)

/-- Encode an unsigned 4-byte integer big-endian (`put_u32`); see `decU32`. -/
def encU32 (n : Nat) : List Nat := beBytes 4 (n % 2 ^ 32)

/-- The byte-emission loop shared by all varint encoders in
`protocol/types.rs`, one fuel unit per iteration.  The loop emits the low 7
bits (`(value & 0x7F) | 0x80`) and shifts while `value & !0x7F ≠ 0`, i.e.
while `value ≥ 128`.  Every call keeps the invariant `v ≤ fuel`, so the
fuel-exhausted branch is reached only with `v = 0`, where `[v]` is exactly
what the loop emits. -/
def uvarintEncodeGo : Nat → Nat → List Nat
  | 0, v => [v]
  | fuel + 1, v =>
    if v < 128 then [v]
    else ((v &&& 0x7F) ||| 0x80) :: uvarintEncodeGo fuel (v >>> 7)

def uvarintEncode (v : Nat) : List Nat := uvarintEncodeGo v v

/-- The byte-consumption loop shared by all varint decoders in
`protocol/types.rs`.  `w` is the bit width of the accumulator type (the `|=`
and `<<` happen in `uN`, hence the reduction modulo `2^w`), `m` the maximum
number of encoded bytes. -/
def uvarintDecodeLoop (w m : Nat) (msg : String) :
    List Nat → Nat → Nat → Except String (Nat × List Nat)
  | [], _, _ => .error msg
  | b :: rest, value, shift =>
    let value := (value ||| ((b &&& 0x7F) <<< shift)) % 2 ^ w
    if b &&& 0x80 = 0 then .ok (value, rest)
    else if shift + 7 ≥ m * 7 then .error "varint too long"
    else uvarintDecodeLoop w m msg rest value (shift + 7)

def uvarintDecode (w m : Nat) (msg : String) (l : List Nat) :
    Except String (Nat × List Nat) :=
  uvarintDecodeLoop w m msg l 0 0

/-- Zig-zag encoding of a signed `w`-bit value, as in the `encode` of
`impl_signed_varint_trait!`: `((n as uN) << 1) ^ ((n >> (w-1)) as uN)`.
The arithmetic right shift by `w-1` yields `-1` for negative `n` and `0`
otherwise, so the second XOR operand is all-ones or zero. -/
def zigzagEnc (w : Nat) (n : Int) : Nat :=
  ((wrapU w n * 2) % 2 ^ w) ^^^ (wrapU w (if n < 0 then -1 else 0))

/-- Zig-zag decoding, as in the `decode` of `impl_signed_varint_trait!`:
`(value >> 1) as iN ^ -((value & 1) as iN)`.  The second operand is `0` or
`-1`; XOR with `-1` on a two's-complement integer is `fun x => -x - 1`. -/
def zigzagDec (w : Nat) (v : Nat) : Int :=
  let half := fromU w (v >>> 1)
  if v &&& 1 = 0 then half else -half - 1

/-- `Varint::encode` (zig-zag i32 varint). -/
def varintEncode (n : Int) : List Nat := uvarintEncode (zigzagEnc 32 n)

/-- `Varint::decode`. -/
def varintDecode (l : List Nat) : Except String (Int × List Nat) :=
  dbind (uvarintDecode 32 5 "Not enough data for Varint" l) fun v rest =>
    .ok (zigzagDec 32 v, rest)

/-- `Varlong::encode` (zig-zag i64 varint). -/
def varlongEncode (n : Int) : List Nat := uvarintEncode (zigzagEnc 64 n)

/-- `Varlong::decode`. -/
def varlongDecode (l : List Nat) : Except String (Int × List Nat) :=
  dbind (uvarintDecode 64 10 "Not enough data for Varlong" l) fun v rest =>
    .ok (zigzagDec 64 v, rest)

/-- One step of the byte-level UTF-8 validation state machine performed by
Rust's `String::from_utf8`.  `rem` counts the continuation bytes still
expected; `lo`/`hi` bound the next byte (they encode the restricted ranges of
the second byte after 0xE0/0xED/0xF0/0xF4 leaders). -/
def isValidUtf8Go : List Nat → Nat → Nat → Nat → Bool
  | [], rem, _, _ => rem = 0
  | b :: rest, 0, _, _ =>
    if b ≤ 0x7F then isValidUtf8Go rest 0 0 0
    else if 0xC2 ≤ b && b ≤ 0xDF then isValidUtf8Go rest 1 0x80 0xBF
    else if b = 0xE0 then isValidUtf8Go rest 2 0xA0 0xBF
    else if (0xE1 ≤ b && b ≤ 0xEC) || b = 0xEE || b = 0xEF then isValidUtf8Go rest 2 0x80 0xBF
    else if b = 0xED then isValidUtf8Go rest 2 0x80 0x9F
    else if b = 0xF0 then isValidUtf8Go rest 3 0x90 0xBF
    else if 0xF1 ≤ b && b ≤ 0xF3 then isValidUtf8Go rest 3 0x80 0xBF
    else if b = 0xF4 then isValidUtf8Go rest 3 0x80 0x8F
    else false
  | b :: rest, rem + 1, lo, hi =>
    if lo ≤ b && b ≤ hi then isValidUtf8Go rest rem 0x80 0xBF else false

/-- `String::from_utf8` succeeds on these bytes. -/
def isValidUtf8 (l : List Nat) : Bool := isValidUtf8Go l 0 0 0

/-- `encode_nullable_bytes` from `shared/byte.rs`. -/
def encodeNullableBytes : Option (List Nat) → List Nat
  | some bytes => varintEncode (wrapS 32 bytes.length) ++ bytes
  | none => varintEncode (-1)

/-- `decode_nullable_bytes` from `shared/byte.rs`. -/
def decodeNullableBytes (l : List Nat) :
    Except String (Option (List Nat) × List Nat) :=
  dbind (varintDecode l) fun len rest =>
    if len < 0 then .ok (none, rest)
    else if rest.length < len.toNat then .error "Not enough data for nullable bytes"
    else .ok (some (rest.take len.toNat), rest.drop len.toNat)

/-- `Header` from `core/domain/record.rs`; the Rust `String` key is carried
as its UTF-8 bytes. -/
structure Header where
  key : List Nat
  value : Option (List Nat)
deriving DecidableEq

/-- `Record` from `core/domain/record.rs`. -/
structure Record where
  length : Int
  attributes : Int
  timestampDelta : Int
  offsetDelta : Int
  key : Option (List Nat)
  value : Option (List Nat)
  headers : List Header
deriving DecidableEq

/-- The per-header portion of `Record::encode`. -/
def Header.encode (h : Header) : List Nat :=
  varintEncode (wrapS 32 h.key.length) ++ h.key ++ encodeNullableBytes h.value

/-- `Record::encode`. -/
def Record.encode (r : Record) : List Nat :=
  varintEncode r.length ++ encSigned 1 r.attributes ++ varlongEncode r.timestampDelta ++
  varintEncode r.offsetDelta ++ encodeNullableBytes r.key ++ encodeNullableBytes r.value ++
  varintEncode (wrapS 32 r.headers.length) ++ (r.headers.map Header.encode).flatten

/-- The header-decoding loop of `Record::decode` (`for _ in 0..headers_count`). -/
def decodeHeaders : Nat → List Nat → Except String (List Header × List Nat)
  | 0, l => .ok ([], l)
  | n + 1, l =>
    dbind (varintDecode l) fun klen r1 =>
      if klen < 0 then .error "Not enough data for Header key length"
      else if r1.length < klen.toNat then .error "Not enough data for Header key"
      else
        let kbytes := r1.take klen.toNat
        if isValidUtf8 kbytes then
          dbind (decodeNullableBytes (r1.drop klen.toNat)) fun v r2 =>
            dbind (decodeHeaders n r2) fun hs r3 => .ok (⟨kbytes, v⟩ :: hs, r3)
        else .error "Invalid UTF-8 for Header key"

/-- `Record::decode`. -/
def Record.decode (l : List Nat) : Except String (Record × List Nat) :=
  dbind (varintDecode l) fun length r1 =>
    if r1.length < 1 then .error "Not enough data for Record attributes"
    else
      dbind (decSigned 1 "Not enough data for i8" r1) fun attributes r2 =>
        dbind (varlongDecode r2) fun timestampDelta r3 =>
          dbind (varintDecode r3) fun offsetDelta r4 =>
            dbind (decodeNullableBytes r4) fun key r5 =>
              dbind (decodeNullableBytes r5) fun value r6 =>
                dbind (varintDecode r6) fun headersCount r7 =>
                  dbind (decodeHeaders
                      (if headersCount < 0 then 0 else headersCount.toNat) r7)
                    fun headers r8 =>
                      .ok ({ length, attributes, timestampDelta, offsetDelta,
                             key, value, headers }, r8)

/-- `RecordBatch` from `core/domain/record_batch.rs`. -/
structure RecordBatch where
  baseOffset : Int
  batchLength : Int
  partitionLeaderEpoch : Int
  magic : Int
  crc : Nat
  attributes : Int
  lastOffsetDelta : Int
  baseTimestamp : Int
  maxTimestamp : Int
  producerId : Int
  producerEpoch : Int
  baseSequence : Int
  recordsCount : Int
  records : List Record
deriving DecidableEq

/-- One bit-step of the reflected CRC-32 division. -/
def crcRound (poly crc : Nat) : Nat :=
  if crc % 2 = 1 then (crc >>> 1) ^^^ poly else crc >>> 1

def crcRounds : Nat → Nat → Nat → Nat
  | 0, _, crc => crc
  | n + 1, poly, crc => crcRounds n poly (crcRound poly crc)

def crcAux (poly : Nat) : List Nat → Nat → Nat
  | [], crc => crc
  | b :: rest, crc => crcAux poly rest (crcRounds 8 poly (crc ^^^ b))

/-- CRC-32 (IEEE 802.3, reflected polynomial 0xEDB88320): the checksum
computed by the `crc32fast::Hasher` that `record_batch.rs` uses. -/
def crc32 (l : List Nat) : Nat := crcAux 0xEDB88320 l 0xFFFFFFFF ^^^ 0xFFFFFFFF

/-- CRC-32C (Castagnoli, reflected polynomial 0x82F63B78).  Modelled from the
spec: "CRC is CRC32C (Castagnoli)"; stated here to express what the spec
requires of the `crc` field. -/
def crc32c (l : List Nat) : Nat := crcAux 0x82F63B78 l 0xFFFFFFFF ^^^ 0xFFFFFFFF

/-- The payload serialization of `RecordBatch::encode` (the `temp_buf`
holding `attributes` through the last record). -/
def encodePayload (b : RecordBatch) : List Nat :=
  encSigned 2 b.attributes ++ encSigned 4 b.lastOffsetDelta ++
  encSigned 8 b.baseTimestamp ++ encSigned 8 b.maxTimestamp ++
  encSigned 8 b.producerId ++ encSigned 2 b.producerEpoch ++
  encSigned 4 b.baseSequence ++ encSigned 4 b.recordsCount ++
  (b.records.map Record.encode).flatten

/-- `RecordBatch::encode`.  `HEADER_SIZE = 4 + 1 + 4 = 9`; `batch_length` and
`crc` are computed, the stored fields are ignored. -/
def RecordBatch.encode (b : RecordBatch) : List Nat :=
  let tempBuf := encodePayload b
  encSigned 8 b.baseOffset ++ encSigned 4 (wrapS 32 (9 + tempBuf.length)) ++
  encSigned 4 b.partitionLeaderEpoch ++ encSigned 1 b.magic ++
  encU32 (crc32 tempBuf) ++ tempBuf

/-- The record-decoding loop of `RecordBatch::decode`
(`for _ in 0..records_count`). -/
def decodeRecords : Nat → List Nat → Except String (List Record × List Nat)
  | 0, l => .ok ([], l)
  | n + 1, l =>
    dbind (Record.decode l) fun r rest =>
      dbind (decodeRecords n rest) fun rs rest2 => .ok (r :: rs, rest2)

/-- `RecordBatch::decode`.  The `expected_payload_len` of the source,
`batch_length as usize - HEADER_SIZE`, is the wrapping usize subtraction
`(wrapU 64 batchLength + (2^64 - 9)) % 2^64`, written inline below. -/
def RecordBatch.decode (l : List Nat) : Except String (RecordBatch × List Nat) :=
  dbind (decSigned 8 "Not enough data for i64" l) fun baseOffset r1 =>
    dbind (decSigned 4 "Not enough data for i32" r1) fun batchLength r2 =>
      dbind (decSigned 4 "Not enough data for i32" r2) fun partitionLeaderEpoch r3 =>
        dbind (decSigned 1 "Not enough data for i8" r3) fun magic r4 =>
          dbind (decU32 "Not enough data for u32" r4) fun crc r5 =>
            if r5.length < (wrapU 64 batchLength + (2 ^ 64 - 9)) % 2 ^ 64 then
              .error "Not enough data for record batch payload"
            else if crc32 (r5.take ((wrapU 64 batchLength + (2 ^ 64 - 9)) % 2 ^ 64)) ≠ crc then
              .error "CRC check failed"
            else
              dbind (decSigned 2 "Not enough data for i16" r5) fun attributes r6 =>
                dbind (decSigned 4 "Not enough data for i32" r6) fun lastOffsetDelta r7 =>
                  dbind (decSigned 8 "Not enough data for i64" r7) fun baseTimestamp r8 =>
                    dbind (decSigned 8 "Not enough data for i64" r8) fun maxTimestamp r9 =>
                      dbind (decSigned 8 "Not enough data for i64" r9) fun producerId r10 =>
                        dbind (decSigned 2 "Not enough data for i16" r10) fun producerEpoch r11 =>
                          dbind (decSigned 4 "Not enough data for i32" r11) fun baseSequence r12 =>
                            dbind (decSigned 4 "Not enough data for i32" r12) fun recordsCount r13 =>
                              dbind (decodeRecords
                                  (if recordsCount < 0 then 0 else recordsCount.toNat) r13)
                                fun records r14 =>
                                  .ok ({ baseOffset, batchLength, partitionLeaderEpoch,
                                         magic, crc, attributes, lastOffsetDelta,
                                         baseTimestamp, maxTimestamp, producerId,
                                         producerEpoch, baseSequence, recordsCount,
                                         records }, r14)

/-- `IndexEntry` from `segment.rs` (8 bytes on disk: i32 relative offset,
u32 physical position, both big-endian).  The index file is modelled as the
list of its entries; every write appends one whole entry. -/
structure IndexEntry where
  relativeOffset : Int
  physicalPosition : Nat
deriving DecidableEq

/-- `TimeIndexEntry` from `segment.rs` (12 bytes on disk). -/
structure TimeIndexEntry where
  timestamp : Int
  relativeOffset : Int
deriving DecidableEq

/-- `Segment` from `segment.rs`.  The three owned files are carried as their
contents; the directory and file handles are not represented. -/
structure Segment where
  baseOffset : Int
  currentSize : Nat
  log : List Nat
  index : List IndexEntry
  timeindex : List TimeIndexEntry
deriving DecidableEq

/-- `Segment::new` on a fresh directory: the three files are created empty
and `current_size` is read from the (empty) log file's metadata. -/
def Segment.new (baseOffset : Int) : Segment :=
  { baseOffset, currentSize := 0, log := [], index := [], timeindex := [] }

/-- `Segment::append` with filesystem writes assumed to succeed (the Rust
`Result` only carries I/O failures).  There is no overflow check on
`(batch.base_offset - self.base_offset) as i32`: the cast truncates.
`current_size += buffer.len() as u32` wraps in u32. -/
def Segment.append (s : Segment) (b : RecordBatch) : Segment :=
  let buffer := RecordBatch.encode b
  let relativeOffset := wrapS 32 (wrapS 64 (b.baseOffset - s.baseOffset))
  let physicalPosition := s.currentSize
  { s with
    log := s.log ++ buffer
    index := s.index ++ [{ relativeOffset, physicalPosition }]
    timeindex := s.timeindex ++ [{ timestamp := b.baseTimestamp, relativeOffset }]
    currentSize := (s.currentSize + buffer.length % 2 ^ 32) % 2 ^ 32 }

/-- The `while low <= high` binary-search loop of
`Segment::find_physical_position`, one fuel unit per iteration (`none` means
the fuel ran out before the loop exited).  `low`/`high` are u64: `high =
mid - 1` and `low = mid + 1` wrap modulo 2^64.  The iteration seeks to byte
`(mid * 8) % 2^64` — a multiple of 8, hence entry slot `mid % 2^61` — and
`read_exact` fails with UnexpectedEof beyond the end of the index file. -/
def bsearchLoop (entries : List IndexEntry) (rel : Int) :
    Nat → Nat → Nat → Nat → Option (Except String Nat)
  | 0, _, _, _ => none
  | fuel + 1, low, high, pos =>
    if low ≤ high then
      let mid := low + (high - low) / 2
      match entries[mid % 2 ^ 61]? with
      | none => some (.error "IO error when reading index file")
      | some e =>
        if e.relativeOffset = rel then some (.ok e.physicalPosition)
        else if e.relativeOffset < rel then
          bsearchLoop entries rel fuel ((mid + 1) % 2 ^ 64) high e.physicalPosition
        else
          bsearchLoop entries rel fuel low ((mid + (2 ^ 64 - 1)) % 2 ^ 64) pos
    else some (.ok pos)

/-- `Segment::find_physical_position` (metadata reads assumed to succeed).
Returns `some (.ok ...)` for the Rust return value, `some (.error ...)` for
an I/O error from inside the loop, `none` if the loop fuel ran out. -/
def Segment.findPhysicalPosition (fuel : Nat) (s : Segment) (offset : Int) :
    Option (Except String (Option Nat)) :=
  if offset < s.baseOffset then some (.ok none)
  else
    let relativeOffset := wrapS 32 (wrapS 64 (offset - s.baseOffset))
    let entriesCount := s.index.length
    if entriesCount = 0 then some (.ok none)
    else
      match bsearchLoop s.index relativeOffset fuel 0 ((entriesCount - 1) % 2 ^ 64) 0 with
      | none => none
      | some (.error e) => some (.error e)
      | some (.ok pos) => some (.ok (some pos))

/-- The tail of `Segment::read_next_batch` once `total_size =
BATCH_HEADER_SIZE + batch_length` is known: `read_exact` the remaining bytes
(fails past the end of the file), then decode the assembled
`total_size`-byte buffer. -/
def readBatchAt (avail : List Nat) (totalSize : Nat) :
    Except String (Option (RecordBatch × Nat)) :=
  if avail.length < totalSize then .error "IO error when reading record batch payload"
  else
    dbind (RecordBatch.decode (avail.take totalSize)) fun batch _ =>
      .ok (some (batch, totalSize))

/-- `Segment::read_next_batch` reading at byte `cursor` of the log file.
The first `read` returns up to 12 bytes; `batch_length` is the big-endian
i32 at bytes 8..12 cast `as usize` (sign-extending). -/
def readNextBatch (log : List Nat) (cursor : Nat) :
    Except String (Option (RecordBatch × Nat)) :=
  if (log.drop cursor).length = 0 then .ok none
  else if (log.drop cursor).length < 12 then .error "Corrupted file: Lacking header size"
  else
    readBatchAt (log.drop cursor)
      (12 + wrapU 64 (fromU 32 (fromBe (((log.drop cursor).take 12).drop 8))))

/-- The accumulation loop of `Segment::read_sequential`, one fuel unit per
iteration; returns the accumulated batches and the log-file cursor (byte
position) when the loop stops.  On the stop-over-`max_bytes` branch the code
seeks back by the size of the batch just read, so the cursor is the start of
that unreturned batch.  (After a stop on a failed mid-stream read the real
file position may lie beyond the returned cursor; no property stated below
depends on it.)  Each successful iteration consumes at least 12 bytes, so
any fuel exceeding `log.length / 12 + 1` is enough; `none` = fuel ran out.
`seqCase` is the case split on the result of one `read_next_batch` call:
`Ok(Some(batch, size))` continues with `onBatch`, while `Ok(None)` (end of
file) and `Err(_)` (mid-stream decode or I/O failure) both `break` with
`onStop`. -/
def seqCase (onBatch : RecordBatch → Nat → Option (List RecordBatch × Nat))
    (onStop : Option (List RecordBatch × Nat)) :
    Except String (Option (RecordBatch × Nat)) → Option (List RecordBatch × Nat)
  | .ok (some (batch, size)) => onBatch batch size
  | .ok none => onStop
  | .error _ => onStop

def readSeqLoop (log : List Nat) (offset : Int) (maxBytes : Nat) :
    Nat → Nat → Nat → List RecordBatch → Option (List RecordBatch × Nat)
  | 0, _, _, _ => none
  | fuel + 1, cursor, total, acc =>
    if total ≥ maxBytes then some (acc, cursor)
    else
      seqCase
        (fun batch size =>
          if 0 < total ∧ maxBytes < total + size then some (acc, cursor)
          else
            readSeqLoop log offset maxBytes fuel (cursor + size) (total + size)
              (if offset < wrapS 64 (batch.baseOffset + batch.recordsCount)
               then acc ++ [batch] else acc))
        (some (acc, cursor))
        (readNextBatch log cursor)

/-- `Segment::read`. -/
def Segment.read (fuel : Nat) (s : Segment) (offset : Int) :
    Option (Except String (Option RecordBatch)) :=
  match s.findPhysicalPosition fuel offset with
  | none => none
  | some (.error e) => some (.error e)
  | some (.ok none) => some (.ok none)
  | some (.ok (some pos)) =>
    match readNextBatch s.log pos with
    | .error e => some (.error e)
    | .ok none => some (.ok none)
    | .ok (some (batch, _)) => some (.ok (some batch))

/-- `Segment::read_sequential` (return value only; the final file cursor is
a property of `readSeqLoop`).  The loop fuel `log.length + 1` provably never
runs out. -/
def Segment.readSequential (fuel : Nat) (s : Segment) (offset : Int) (maxBytes : Nat) :
    Option (Except String (List RecordBatch)) :=
  match s.findPhysicalPosition fuel offset with
  | none => none
  | some (.error e) => some (.error e)
  | some (.ok none) => some (.ok [])
  | some (.ok (some pos)) =>
    match readSeqLoop s.log offset maxBytes (s.log.length + 1) pos 0 [] with
    | none => none
    | some (batches, _) => some (.ok batches)

/-- `PartitionLog` from `log.rs`.  The directory is not represented: segment
file paths are a function of the base offset alone. -/
structure PartitionLog where
  maxSegmentSize : Nat
  segments : List Segment
  retentionBytes : Nat
  retentionMs : Nat
deriving DecidableEq

/-- `PartitionLog::new` on a fresh directory: one initial segment with base
offset 0. -/
def PartitionLog.new (maxSegmentSize retentionBytes retentionMs : Nat) : PartitionLog :=
  { maxSegmentSize, segments := [Segment.new 0], retentionBytes, retentionMs }

/-- `PartitionLog::append`: append to the last segment, then roll if its
(updated) `current_size` reached `max_segment_size`.  `next_offset =
batch.base_offset + batch.records_count as i64` wraps in i64. -/
def PartitionLog.append (p : PartitionLog) (b : RecordBatch) : Except String PartitionLog :=
  ebind (okOr p.segments.getLast? "No active segment found") fun active =>
    if (active.append b).currentSize ≥ p.maxSegmentSize then
      .ok { p with segments := (p.segments.dropLast ++ [active.append b]) ++
              [Segment.new (wrapS 64 (b.baseOffset + b.recordsCount))] }
    else
      .ok { p with segments := p.segments.dropLast ++ [active.append b] }

/-- `PartitionLog::remove_segment`.  `Segment::delete` unlinks the three
companion files; dropping the segment from the list models that. -/
def PartitionLog.removeSegment (p : PartitionLog) (index : Nat) : Except String PartitionLog :=
  if p.segments.length = 1 then .error "Cannot remove the last segment"
  else if p.segments.length ≤ index then .error "Segment index out of bounds"
  else .ok { p with segments := p.segments.eraseIdx index }

/-- Outcome of the metadata / modified-time / elapsed queries that
`enforce_retention_by_time` makes for one segment's log file.  The
environment is keyed by the segment's base offset (the file path is a
function of it).  `futureModified` is the clock-skew case in which
`SystemTime::elapsed` fails; `ageMs` is a successful elapsed duration in
milliseconds (`as_millis() as u64` wraps modulo 2^64). -/
inductive MetaOutcome where
  | ioErr
  | noModifiedTime
  | futureModified
  | ageMs (ms : Nat)
deriving DecidableEq

/-- The `loop` of `enforce_retention_by_bytes`: break when one segment is
left or the (wrapping u64) total size fits the quota, else remove the
oldest.  `remove_segment(0)` cannot fail here since the length is ≥ 2. -/
def retainBytesLoop (retentionBytes : Nat) : List Segment → List Segment
  | [] => []
  | [s] => [s]
  | s :: s2 :: rest =>
    if retentionBytes < ((s :: s2 :: rest).map (fun seg => seg.currentSize)).sum % 2 ^ 64 then
      retainBytesLoop retentionBytes (s2 :: rest)
    else s :: s2 :: rest

/-- `PartitionLog::enforce_retention_by_bytes`. -/
def PartitionLog.enforceRetentionByBytes (p : PartitionLog) : Except String PartitionLog :=
  .ok { p with segments := retainBytesLoop p.retentionBytes p.segments }

/-- The `loop` of `enforce_retention_by_time`: break when one segment is
left; ask the environment about the oldest segment's log file.  A metadata
read error makes the segment not-expired (break, `Ok`); a missing modified
time or a future modified time aborts the whole function with an error;
otherwise the segment is expired iff its age strictly exceeds
`retention_ms`. -/
def retainTimeLoop (env : Int → MetaOutcome) (retentionMs : Nat) :
    List Segment → Except String (List Segment)
  | [] => .ok []
  | [s] => .ok [s]
  | s :: s2 :: rest =>
    match env s.baseOffset with
    | .ioErr => .ok (s :: s2 :: rest)
    | .noModifiedTime => .error "Failed to get modified time"
    | .futureModified => .error "Failed to get duration"
    | .ageMs ms =>
      if retentionMs < ms % 2 ^ 64 then retainTimeLoop env retentionMs (s2 :: rest)
      else .ok (s :: s2 :: rest)

/-- `PartitionLog::enforce_retention_by_time`. -/
def PartitionLog.enforceRetentionByTime (env : Int → MetaOutcome) (p : PartitionLog) :
    Except String PartitionLog :=
  ebind (retainTimeLoop env p.retentionMs p.segments) fun segs =>
    .ok { p with segments := segs }

/-- `PartitionLog::enforce_retention`: bytes first (when `retention_bytes >
0`), then time (when `retention_ms > 0`). -/
def PartitionLog.enforceRetention (env : Int → MetaOutcome) (p : PartitionLog) :
    Except String PartitionLog :=
  ebind (if 0 < p.retentionBytes then p.enforceRetentionByBytes else .ok p) fun p1 =>
    if 0 < p1.retentionMs then p1.enforceRetentionByTime env else .ok p1

/-- The base offsets of a list of segments are strictly increasing. -/
def strictlyIncr : List Int → Bool
  | [] => true
  | [_] => true
  | a :: b :: rest => decide (a < b) && strictlyIncr (b :: rest)

/-- The two PartitionLog invariants of spec §3 / §8: at least one segment,
strictly increasing base offsets. -/
def PartitionLog.wellFormed (p : PartitionLog) : Prop :=
  p.segments ≠ [] ∧ strictlyIncr (p.segments.map (fun s => s.baseOffset)) = true

/-! ### Record and batch round-trip -/

/-- A faithful image of a Rust `Vec<u8>`: every element is a byte value and
the length survives the `len as i32` cast. -/
def byteSeqOK (l : List Nat) : Bool :=
  decide (l.length < 2 ^ 31) && l.all fun b => decide (b < 256)

def optBytesOK : Option (List Nat) → Bool
  | none => true
  | some l => byteSeqOK l

/-- Well-formedness of a `Header` for the purpose of the round-trip: the key
is the byte sequence of a Rust `String` (valid UTF-8, byte values, length
below i32::MAX) and the value is a faithful `Vec<u8>` image. -/
def headerWF (h : Header) : Bool :=
  isValidUtf8 h.key && byteSeqOK h.key && optBytesOK h.value

/-- Well-formedness of a `Record`: every stored integer is in the range of
its Rust field type, byte-sequence lengths fit an i32, headers count fits an
i32. -/
def recordWF (r : Record) : Bool :=
  decide (inRangeS 32 r.length) && decide (inRangeS 8 r.attributes) &&
  decide (inRangeS 64 r.timestampDelta) && decide (inRangeS 32 r.offsetDelta) &&
  optBytesOK r.key && optBytesOK r.value &&
  decide (r.headers.length < 2 ^ 31) && r.headers.all headerWF

/-- Well-formedness of a `RecordBatch`: every stored integer is in the range
of its Rust field type, `records_count` equals the number of records (the
Rust invariant), the encoded payload leaves `batch_length` below i32::MAX,
and the records are well-formed. -/
def batchWF (b : RecordBatch) : Bool :=
  decide (inRangeS 64 b.baseOffset) && decide (inRangeS 32 b.partitionLeaderEpoch) &&
  decide (inRangeS 8 b.magic) && decide (inRangeS 16 b.attributes) &&
  decide (inRangeS 32 b.lastOffsetDelta) && decide (inRangeS 64 b.baseTimestamp) &&
  decide (inRangeS 64 b.maxTimestamp) && decide (inRangeS 64 b.producerId) &&
  decide (inRangeS 16 b.producerEpoch) && decide (inRangeS 32 b.baseSequence) &&
  decide (inRangeS 32 b.recordsCount) &&
  decide (b.recordsCount = (b.records.length : Int)) &&
  decide ((encodePayload b).length + 9 < 2 ^ 31) &&
  b.records.all recordWF

/-- `RecordBatch::encode` ignores the stored `batch_length` and `crc` and
writes the computed ("back-patched") values; `backpatch b` is the batch a
decoder therefore recovers. -/
def backpatch (b : RecordBatch) : RecordBatch :=
  { b with batchLength := ((9 + (encodePayload b).length : Nat) : Int),
           crc := crc32 (encodePayload b) }

/-- Concatenated encodings of a list of batches: the content of a log file
after appending them in order. -/
def encodeAll (bs : List RecordBatch) : List Nat := (bs.map RecordBatch.encode).flatten

/-- Byte size of `encodeAll bs`. -/
def sizeAll (bs : List RecordBatch) : Nat := (encodeAll bs).length

/-- Modelled from the spec: batch-granularity description of the
`read_sequential` accumulation loop (§4.3 Sequential read, step 2), stated
over the already-decoded batches with their encoded byte sizes.  "Repeatedly
decode one batch at a time; sum decoded byte sizes; stop when the next batch
would push the total over `max_bytes` and at least one batch has been
accumulated" — with "accumulated" read as *counted toward the byte total*
(the amendment forced by the code's `bytes_read_total > 0` guard); "skip
batches whose last offset is ≤ the requested offset"; "on stop-due-to-limit
the file offset is rewound to the start of the unreturned batch". -/
def seqSpec (offset : Int) (maxBytes : Nat) :
    List (RecordBatch × Nat) → Nat → Nat → List RecordBatch → List RecordBatch × Nat
  | [], cursor, _, acc => (acc, cursor)
  | (b, size) :: rest, cursor, total, acc =>
    if total ≥ maxBytes then (acc, cursor)
    else if 0 < total ∧ maxBytes < total + size then (acc, cursor)
    else
      seqSpec offset maxBytes rest (cursor + size) (total + size)
        (if offset < wrapS 64 (b.baseOffset + b.recordsCount) then acc ++ [b] else acc)

/-- A minimal record: null key, null value, no headers, zero deltas. -/
def minRecord : Record :=
  { length := 0, attributes := 0, timestampDelta := 0, offsetDelta := 0,
    key := none, value := none, headers := [] }

/-- A minimal batch with no records (61 encoded bytes). -/
def sampleBatch : RecordBatch :=
  { baseOffset := 0, batchLength := 0, partitionLeaderEpoch := 0, magic := 2,
    crc := 0, attributes := 0, lastOffsetDelta := 0, baseTimestamp := 7,
    maxTimestamp := 0, producerId := 0, producerEpoch := 0, baseSequence := 0,
    recordsCount := 0, records := [] }

/-- A batch whose offset is 2^31 away from a zero-based segment: the i64
difference does not fit an i32. -/
def c3Batch : RecordBatch := { sampleBatch with baseOffset := 2147483648 }

/-- A segment whose index file is empty while its log file is not. -/
def c4Seg : Segment :=
  { baseOffset := 0, currentSize := 61, log := RecordBatch.encode sampleBatch,
    index := [], timeindex := [] }

/-- A segment whose sole index entry has relative offset 10: any target
relative offset below 10 precedes all entries. -/
def c5Seg : Segment :=
  { baseOffset := 0, currentSize := 61, log := RecordBatch.encode sampleBatch,
    index := [{ relativeOffset := 10, physicalPosition := 0 }], timeindex := [] }

/-- One-record batch at offset 0 (68 encoded bytes). -/
def c6A : RecordBatch :=
  { sampleBatch with baseOffset := 0, recordsCount := 1, records := [minRecord] }

/-- One-record batch at offset 5, leaving an offset gap after `c6A`. -/
def c6B : RecordBatch :=
  { sampleBatch with baseOffset := 5, recordsCount := 1, records := [minRecord] }

/-- A segment holding `c6A` then `c6B`, with one index entry per batch (the
state reached by appending both). -/
def c6Seg : Segment :=
  { baseOffset := 0, currentSize := 136, log := encodeAll [c6A, c6B],
    index := [{ relativeOffset := 0, physicalPosition := 0 },
              { relativeOffset := 5, physicalPosition := 68 }],
    timeindex := [] }

/-- A 131-byte-value record making `scenarioBatch` encode to 200 bytes. -/
def scenarioRecord : Record := { minRecord with value := some (List.replicate 131 7) }

/-- A 200-byte single-record batch at offset `o`. -/
def scenarioBatch (o : Int) : RecordBatch :=
  { sampleBatch with baseOffset := o, recordsCount := 1, records := [scenarioRecord] }

/-- The spec's end-to-end scenario 6: a segment with three 200-byte batches
at offsets 0, 1, 2. -/
def scenarioSeg : Segment :=
  { baseOffset := 0, currentSize := 600,
    log := encodeAll [scenarioBatch 0, scenarioBatch 1, scenarioBatch 2],
    index := [{ relativeOffset := 0, physicalPosition := 0 },
              { relativeOffset := 1, physicalPosition := 200 },
              { relativeOffset := 2, physicalPosition := 400 }],
    timeindex := [] }

/-- Batch claiming one record at base offset 0 used to roll a tiny log. -/
def c8A : RecordBatch := { sampleBatch with baseOffset := 0, recordsCount := 1 }

/-- Batch claiming zero records at base offset 0: after it the roll target
base offset is 0 again. -/
def c8B : RecordBatch := { sampleBatch with baseOffset := 0, recordsCount := 0 }

/-- A two-segment partition log with time retention enabled. -/
def c9Log : PartitionLog :=
  { maxSegmentSize := 100, segments := [Segment.new 0, Segment.new 5],
    retentionBytes := 0, retentionMs := 1000 }

lemma dbind_ok {A B : Type} (a : A) (rest : List Nat)
    (f : A → List Nat → Except String B) : dbind (.ok (a, rest)) f = f a rest := rfl

lemma dbind_error {A B : Type} (e : String) (f : A → List Nat → Except String B) :
    dbind (.error e) f = .error e := rfl

lemma ebind_ok {A B : Type} (a : A) (f : A → Except String B) :
    ebind (.ok a) f = f a := rfl

lemma ebind_error {A B : Type} (e : String) (f : A → Except String B) :
    ebind (.error e) f = .error e := rfl

lemma okOr_some {A : Type} (a : A) (msg : String) : okOr (some a) msg = .ok a := rfl

example : varintEncode 0 = [0] := by decide

example : varintEncode (-1) = [1] := by decide

example : varintEncode 1 = [2] := by decide

example : varintEncode 300 = [0xD8, 0x04] := by decide

example : varintDecode [0xD8, 0x04, 9] = .ok (300, [9]) := by decide

example : varintDecode (varintEncode (-2147483648)) = .ok (-2147483648, []) := by decide

example : varlongDecode (varlongEncode (-9223372036854775808)) =
    .ok (-9223372036854775808, []) := by decide

example : encSigned 4 (-2) = [255, 255, 255, 254] := by decide

example : decSigned 4 "e" [255, 255, 255, 254, 7] = .ok (-2, [7]) := by decide

example : crc32 [0x31, 0x32, 0x33, 0x34, 0x35, 0x36, 0x37, 0x38, 0x39] = 0xCBF43926 := by decide

example : crc32c [0x31, 0x32, 0x33, 0x34, 0x35, 0x36, 0x37, 0x38, 0x39] = 0xE3069283 := by decide

example : isValidUtf8 [0x68, 0x69] = true := by decide

example : isValidUtf8 [0xC3, 0xA9] = true := by decide

example : isValidUtf8 [0xC3] = false := by decide

example : isValidUtf8 [0xED, 0xA0, 0x80] = false := by decide

/-! ### Arithmetic facts about the machine-integer helpers -/

lemma wrapU_lt (w : Nat) (n : Int) : wrapU w n < 2 ^ w := by
  unfold wrapU
  have h2 : (0:Int) < (2:Int) ^ w := by positivity
  have := Int.emod_lt_of_pos n (b := (2:Int) ^ w) h2
  have hnn := Int.emod_nonneg n (ne_of_gt h2)
  have hc : ((2 ^ w : Nat) : Int) = (2:Int) ^ w := by push_cast; ring
  omega

lemma fromU_wrapU (w : Nat) (n : Int) : fromU w (wrapU w n) = wrapS w n := by
  unfold fromU wrapU wrapS
  have h2 : (0:Int) < (2:Int) ^ w := by positivity
  have hnn := Int.emod_nonneg n (ne_of_gt h2)
  have hlt := Int.emod_lt_of_pos n (b := (2:Int) ^ w) h2
  simp only [Int.toNat_of_nonneg hnn]

lemma wrapS_eq_self {w : Nat} {n : Int} (h : inRangeS w n) (hw : 0 < w) : wrapS w n = n := by
  unfold wrapS
  obtain ⟨h1, h2⟩ := h
  have hsplit : (2:Int) ^ w = 2 ^ (w - 1) * 2 := by
    rw [← pow_succ]
    congr 1
    omega
  rcases le_or_lt 0 n with hn | hn
  · have : n % 2 ^ w = n := Int.emod_eq_of_lt hn (by omega)
    rw [this, if_pos (by omega)]
  · have : n % 2 ^ w = n + 2 ^ w := by
      have he : (n + 2 ^ w) % 2 ^ w = n % 2 ^ w := Int.add_emod_self
      rw [← he]
      exact Int.emod_eq_of_lt (by omega) (by omega)
    rw [this]
    have hcond : ¬ (n + 2 ^ w < 2 ^ (w - 1)) := by omega
    rw [if_neg hcond]
    omega

lemma wrapS_inRange (w : Nat) (n : Int) (hw : 0 < w) : inRangeS w (wrapS w n) := by
  unfold wrapS inRangeS
  have h2 : (0:Int) < (2:Int) ^ w := by positivity
  have hnn := Int.emod_nonneg n (ne_of_gt h2)
  have hlt := Int.emod_lt_of_pos n (b := (2:Int) ^ w) h2
  have hsplit : (2:Int) ^ w = 2 ^ (w - 1) * 2 := by
    rw [← pow_succ]
    congr 1
    omega
  by_cases hc : n % 2 ^ w < 2 ^ (w - 1)
  · rw [if_pos hc]
    exact ⟨by omega, hc⟩
  · rw [if_neg hc]
    constructor <;> omega

lemma beBytes_length (w n : Nat) : (beBytes w n).length = w := by
  induction w generalizing n with
  | zero => rfl
  | succ w ih => simp [beBytes, ih]

lemma fromBeAux_beBytes (w : Nat) : ∀ (acc n : Nat),
    fromBeAux acc (beBytes w n) = acc * 2 ^ (8 * w) + n % 2 ^ (8 * w) := by
  induction w with
  | zero => intro acc n; simp [beBytes, fromBeAux, Nat.mod_one]
  | succ w ih =>
    intro acc n
    have hdig : (n >>> (8 * w)) % 256 * 2 ^ (8 * w) + n % 2 ^ (8 * w) = n % 2 ^ (8 * (w + 1)) := by
      rw [Nat.shiftRight_eq_div_pow]
      have h1 : 2 ^ (8 * (w + 1)) = 2 ^ (8 * w) * 256 := by
        rw [show 8 * (w + 1) = 8 * w + 8 by ring, pow_add]
        norm_num
      rw [h1, Nat.mod_mul]
      ring_nf
    calc fromBeAux acc (beBytes (w + 1) n)
        = fromBeAux (acc * 256 + (n >>> (8 * w)) % 256) (beBytes w n) := rfl
      _ = (acc * 256 + (n >>> (8 * w)) % 256) * 2 ^ (8 * w) + n % 2 ^ (8 * w) := ih _ _
      _ = acc * 2 ^ (8 * (w + 1)) + ((n >>> (8 * w)) % 256 * 2 ^ (8 * w) + n % 2 ^ (8 * w)) := by
          rw [show 8 * (w + 1) = 8 * w + 8 by ring, pow_add]
          ring
      _ = acc * 2 ^ (8 * (w + 1)) + n % 2 ^ (8 * (w + 1)) := by rw [hdig]

lemma fromBe_beBytes (w n : Nat) : fromBe (beBytes w n) = n % 2 ^ (8 * w) := by
  simpa using fromBeAux_beBytes w 0 n

lemma decTake_append (w : Nat) (msg : String) (pre rest : List Nat) (h : pre.length = w) :
    decTake w msg (pre ++ rest) = .ok (pre, rest) := by
  unfold decTake
  have hlen : (pre ++ rest).length = w + rest.length := by simp [h]
  rw [if_neg (by omega)]
  subst h
  rw [List.take_left, List.drop_left]

lemma decSigned_encSigned (w : Nat) (msg : String) (n : Int) (rest : List Nat) :
    decSigned w msg (encSigned w n ++ rest) = .ok (wrapS (8 * w) n, rest) := by
  unfold decSigned encSigned
  rw [decTake_append w msg _ rest (beBytes_length _ _), dbind_ok]
  rw [fromBe_beBytes]
  have h := wrapU_lt (8 * w) n
  rw [Nat.mod_eq_of_lt h, fromU_wrapU]

lemma decU32_encU32 (msg : String) (n : Nat) (h : n < 2 ^ 32) (rest : List Nat) :
    decU32 msg (encU32 n ++ rest) = .ok (n, rest) := by
  unfold decU32 encU32
  rw [decTake_append 4 msg _ rest (beBytes_length _ _), dbind_ok]
  rw [fromBe_beBytes]
  norm_num
  omega

/-! ### Varint round-trip -/

lemma and127_eq_mod (z : Nat) : z &&& 127 = z % 128 := by
  have := Nat.and_pow_two_sub_one_eq_mod z 7
  norm_num at this
  exact this

lemma and128_eq_zero {z : Nat} (h : z < 128) : z &&& 128 = 0 := by
  apply Nat.eq_of_testBit_eq
  intro i
  rw [Nat.testBit_and, Nat.zero_testBit]
  rcases eq_or_ne i 7 with hi | hi
  · subst hi
    have : z.testBit 7 = false := Nat.testBit_lt_two_pow (by norm_num; omega)
    simp [this]
  · have : (128 : Nat).testBit i = false := by
      rw [show (128 : Nat) = 2 ^ 7 by norm_num]
      exact Nat.testBit_two_pow_of_ne (Ne.symm hi)
    simp [this]

lemma contByte_and127 (z : Nat) : ((z &&& 127) ||| 128) &&& 127 = z % 128 := by
  rw [Nat.and_distrib_right, Nat.and_assoc]
  rw [show (127 &&& 127 : Nat) = 127 by decide, show (128 &&& 127 : Nat) = 0 by decide]
  rw [Nat.or_zero]
  exact and127_eq_mod z

lemma contByte_and128 (z : Nat) : ((z &&& 127) ||| 128) &&& 128 = 128 := by
  rw [Nat.and_distrib_right]
  have h1 : (z &&& 127) &&& 128 = 0 := by
    apply and128_eq_zero
    calc z &&& 127 = z % 128 := and127_eq_mod z
      _ < 128 := Nat.mod_lt _ (by norm_num)
  rw [h1]
  norm_num

lemma lor_shift {v : Nat} (b s : Nat) (hv : v < 2 ^ s) : v ||| (b <<< s) = v + b * 2 ^ s := by
  rw [Nat.shiftLeft_eq]
  calc v ||| b * 2 ^ s = b * 2 ^ s ||| v := Nat.or_comm _ _
    _ = 2 ^ s * b ||| v := by rw [Nat.mul_comm b]
    _ = 2 ^ s * b + v := (Nat.mul_add_lt_is_or hv b).symm
    _ = v + b * 2 ^ s := by ring

lemma uvarintDecodeLoop_encodeGo (w m : Nat) (msg : String) :
    ∀ fuel z v s (rest : List Nat), z ≤ fuel → v < 2 ^ s → z < 2 ^ (7 * m - s) → s < 7 * m →
    uvarintDecodeLoop w m msg (uvarintEncodeGo fuel z ++ rest) v s =
      .ok ((v + z * 2 ^ s) % 2 ^ w, rest) := by
  intro fuel
  induction fuel with
  | zero =>
    intro z v s rest hz hv _ _
    have hz0 : z = 0 := by omega
    subst hz0
    simp [uvarintEncodeGo, uvarintDecodeLoop, Nat.zero_and, Nat.zero_shiftLeft, Nat.or_zero]
  | succ fuel ih =>
    intro z v s rest hz hv hzs hs
    by_cases hsmall : z < 128
    · rw [uvarintEncodeGo, if_pos hsmall, List.cons_append, List.nil_append]
      rw [uvarintDecodeLoop]
      have hb : z &&& 128 = 0 := and128_eq_zero hsmall
      rw [and127_eq_mod, Nat.mod_eq_of_lt hsmall, lor_shift z s hv]
      simp [hb]
    · have hz128 : 128 ≤ z := by omega
      rw [uvarintEncodeGo, if_neg hsmall, List.cons_append]
      rw [uvarintDecodeLoop]
      rw [contByte_and127, contByte_and128]
      have hmod : z % 128 < 128 := Nat.mod_lt _ (by norm_num)
      rw [lor_shift (z % 128) s hv]
      have hguard : ¬ (s + 7 ≥ m * 7) := by
        have h7 : (2:Nat) ^ 7 < 2 ^ (7 * m - s) := by
          calc (2:Nat) ^ 7 = 128 := by norm_num
            _ ≤ z := hz128
            _ < _ := hzs
        have h8 : 7 < 7 * m - s := by
          by_contra hcon
          push_neg at hcon
          have hle : (2:Nat) ^ (7 * m - s) ≤ 2 ^ 7 :=
            Nat.pow_le_pow_right (by norm_num) hcon
          omega
        omega
      rw [if_neg (by norm_num), if_neg hguard]
      have hshr : z >>> 7 = z / 128 := by
        rw [Nat.shiftRight_eq_div_pow]
      rw [hshr]
      have h2s7 : (2:Nat) ^ (s + 7) = 128 * 2 ^ s := by
        rw [pow_add]
        ring
      have hv1 : (v + z % 128 * 2 ^ s) % 2 ^ w < 2 ^ (s + 7) := by
        have h1 : (v + z % 128 * 2 ^ s) % 2 ^ w ≤ v + z % 128 * 2 ^ s := Nat.mod_le _ _
        have h2 : z % 128 * 2 ^ s ≤ 127 * 2 ^ s := Nat.mul_le_mul_right _ (by omega)
        omega
      have hz' : z / 128 ≤ fuel := by
        have h1 : z / 128 < fuel + 1 :=
          lt_of_lt_of_le (Nat.div_lt_self (by omega) (by norm_num)) hz
        exact Nat.lt_succ_iff.mp h1
      have hzs' : z / 128 < 2 ^ (7 * m - (s + 7)) := by
        rw [Nat.div_lt_iff_lt_mul (by norm_num : 0 < 128)]
        have he : 7 * m - s = (7 * m - (s + 7)) + 7 := by omega
        rw [he, pow_add] at hzs
        calc z < 2 ^ (7 * m - (s + 7)) * 2 ^ 7 := hzs
          _ = 2 ^ (7 * m - (s + 7)) * 128 := by norm_num
      have hs' : s + 7 < 7 * m := by omega
      rw [ih (z / 128) _ (s + 7) rest hz' hv1 hzs' hs']
      have harith : ((v + z % 128 * 2 ^ s) % 2 ^ w + z / 128 * 2 ^ (s + 7)) % 2 ^ w
          = (v + z * 2 ^ s) % 2 ^ w := by
        rw [Nat.mod_add_mod]
        congr 1
        calc v + z % 128 * 2 ^ s + z / 128 * 2 ^ (s + 7)
            = v + (z % 128 + 128 * (z / 128)) * 2 ^ s := by rw [h2s7]; ring
          _ = v + z * 2 ^ s := by rw [Nat.mod_add_div]
      rw [harith]

lemma uvarintDecode_encode (w m : Nat) (msg : String) (z : Nat) (rest : List Nat)
    (hz : z < 2 ^ (7 * m)) (hm : 0 < m) :
    uvarintDecode w m msg (uvarintEncode z ++ rest) = .ok (z % 2 ^ w, rest) := by
  unfold uvarintDecode uvarintEncode
  rw [uvarintDecodeLoop_encodeGo w m msg z z 0 0 rest le_rfl (by norm_num)
    (by simpa using hz) (by omega)]
  norm_num

lemma xor_allones (w u : Nat) (hu : u < 2 ^ w) : u ^^^ (2 ^ w - 1) = 2 ^ w - 1 - u := by
  apply Nat.eq_of_testBit_eq
  intro i
  rw [Nat.testBit_xor]
  rw [show 2 ^ w - 1 - u = 2 ^ w - (u + 1) by omega]
  rw [Nat.testBit_two_pow_sub_succ hu]
  rw [Nat.testBit_two_pow_sub_one]
  by_cases hi : i < w
  · simp [hi]
  · have hf : u.testBit i = false :=
      Nat.testBit_lt_two_pow
        (lt_of_lt_of_le hu (Nat.pow_le_pow_right (by norm_num) (by omega)))
    simp [hi, hf]

lemma wrapU_of_nonneg {w : Nat} {n : Int} (h0 : 0 ≤ n) (hlt : n < 2 ^ w) :
    wrapU w n = n.toNat := by
  unfold wrapU
  rw [Int.emod_eq_of_lt h0 hlt]

lemma wrapU_of_neg {w : Nat} {n : Int} (h0 : -(2:Int) ^ w ≤ n) (hlt : n < 0) :
    (wrapU w n : Int) = n + 2 ^ w := by
  unfold wrapU
  have hp : (0:Int) < 2 ^ w := by positivity
  have he : n % (2:Int) ^ w = n + 2 ^ w := by
    rw [← Int.add_emod_self]
    exact Int.emod_eq_of_lt (by omega) (by omega)
  rw [he, Int.toNat_of_nonneg (by omega)]

lemma zigzagEnc_spec (w : Nat) (n : Int) (hw : 0 < w) (h : inRangeS w n) :
    zigzagEnc w n = if 0 ≤ n then 2 * n.toNat else 2 * (-n).toNat - 1 := by
  obtain ⟨h1, h2⟩ := h
  have hcast : ((2 ^ w : Nat) : Int) = (2:Int) ^ w := by push_cast; ring
  have hcast1 : ((2 ^ (w - 1) : Nat) : Int) = (2:Int) ^ (w - 1) := by push_cast; ring
  have hsplit : (2:Int) ^ w = 2 ^ (w - 1) * 2 := by
    rw [← pow_succ]
    congr 1
    omega
  unfold zigzagEnc
  rcases le_or_lt 0 n with hn | hn
  · rw [if_neg (not_lt.mpr hn)]
    rw [wrapU_of_nonneg hn (by omega)]
    rw [show wrapU w 0 = 0 by unfold wrapU; simp]
    rw [Nat.xor_zero]
    rw [if_pos hn]
    have hk : n.toNat * 2 < 2 ^ w := by omega
    rw [Nat.mod_eq_of_lt hk]
    ring
  · rw [if_neg (not_le.mpr hn), if_pos hn]
    have hu : (wrapU w n : Int) = n + 2 ^ w := wrapU_of_neg (by omega) hn
    have hm1 : 1 ≤ (-n).toNat := by omega
    have hm2 : (-n).toNat ≤ 2 ^ (w - 1) := by omega
    have huval : wrapU w n = 2 ^ w - (-n).toNat := by omega
    rw [huval]
    rw [show wrapU w (-1) = 2 ^ w - 1 by
      have := wrapU_of_neg (w := w) (n := -1) (by omega) (by norm_num)
      omega]
    have h2m : 2 * (-n).toNat ≤ 2 ^ w := by omega
    have hstep : (2 ^ w - (-n).toNat) * 2 = (2 ^ w - 2 * (-n).toNat) + 2 ^ w := by omega
    rw [hstep, Nat.add_mod_right, Nat.mod_eq_of_lt (by omega)]
    rw [xor_allones w _ (by omega)]
    omega

lemma zigzagEnc_lt (w : Nat) (n : Int) : zigzagEnc w n < 2 ^ w := by
  unfold zigzagEnc
  exact Nat.xor_lt_two_pow (Nat.mod_lt _ (by positivity)) (wrapU_lt w _)

lemma fromU_of_lt {w : Nat} {k : Nat} (h : k < 2 ^ (w - 1)) : fromU w k = k := by
  unfold fromU
  rw [if_pos]
  have hcast1 : ((2 ^ (w - 1) : Nat) : Int) = (2:Int) ^ (w - 1) := by push_cast; ring
  omega

lemma zigzagDec_enc (w : Nat) (n : Int) (hw : 0 < w) (h : inRangeS w n) :
    zigzagDec w (zigzagEnc w n) = n := by
  rw [zigzagEnc_spec w n hw h]
  obtain ⟨h1, h2⟩ := h
  have hcast1 : ((2 ^ (w - 1) : Nat) : Int) = (2:Int) ^ (w - 1) := by push_cast; ring
  unfold zigzagDec
  rcases le_or_lt 0 n with hn | hn
  · rw [if_pos hn]
    have hshift : (2 * n.toNat) >>> 1 = n.toNat := by
      rw [Nat.shiftRight_eq_div_pow]
      omega
    have hand : (2 * n.toNat) &&& 1 = 0 := by
      rw [Nat.and_one_is_mod]
      omega
    rw [hshift, hand, if_pos rfl]
    rw [fromU_of_lt (by omega)]
    omega
  · rw [if_neg (not_le.mpr hn)]
    have hm1 : 1 ≤ (-n).toNat := by omega
    have hm2 : (-n).toNat ≤ 2 ^ (w - 1) := by omega
    have hshift : (2 * (-n).toNat - 1) >>> 1 = (-n).toNat - 1 := by
      rw [Nat.shiftRight_eq_div_pow]
      omega
    have hand : (2 * (-n).toNat - 1) &&& 1 = 1 := by
      rw [Nat.and_one_is_mod]
      omega
    rw [hshift, hand, if_neg (by norm_num)]
    rw [fromU_of_lt (by omega)]
    omega

lemma varintDecode_encode (n : Int) (rest : List Nat) (h : inRangeS 32 n) :
    varintDecode (varintEncode n ++ rest) = .ok (n, rest) := by
  unfold varintDecode varintEncode
  rw [uvarintDecode_encode 32 5 _ _ rest
    (lt_of_lt_of_le (zigzagEnc_lt 32 n) (by norm_num)) (by norm_num), dbind_ok]
  rw [Nat.mod_eq_of_lt (zigzagEnc_lt 32 n)]
  rw [zigzagDec_enc 32 n (by norm_num) h]

lemma varlongDecode_encode (n : Int) (rest : List Nat) (h : inRangeS 64 n) :
    varlongDecode (varlongEncode n ++ rest) = .ok (n, rest) := by
  unfold varlongDecode varlongEncode
  rw [uvarintDecode_encode 64 10 _ _ rest
    (lt_of_lt_of_le (zigzagEnc_lt 64 n) (by norm_num)) (by norm_num), dbind_ok]
  rw [Nat.mod_eq_of_lt (zigzagEnc_lt 64 n)]
  rw [zigzagDec_enc 64 n (by norm_num) h]

lemma int_pow_cast (w : Nat) : ((2 ^ w : Nat) : Int) = (2:Int) ^ w := by push_cast; ring

lemma natLen_inRange32 {k : Nat} (h : k < 2 ^ 31) : inRangeS 32 (k : Int) := by
  unfold inRangeS
  have h1 : ((2:Int) ^ (32 - 1)) = 2147483648 := by norm_num
  have h2 : k < 2147483648 := lt_of_lt_of_eq h (by norm_num)
  rw [h1]
  omega

lemma wrapS32_natLen {k : Nat} (h : k < 2 ^ 31) : wrapS 32 (k : Int) = (k : Int) :=
  wrapS_eq_self (natLen_inRange32 h) (by norm_num)

lemma decodeNullableBytes_encode (v : Option (List Nat)) (hv : optBytesOK v = true)
    (rest : List Nat) :
    decodeNullableBytes (encodeNullableBytes v ++ rest) = .ok (v, rest) := by
  cases v with
  | none =>
    rw [show encodeNullableBytes none = varintEncode (-1) from rfl]
    rw [decodeNullableBytes]
    rw [varintDecode_encode (-1) rest (by constructor <;> norm_num), dbind_ok]
    norm_num
  | some l =>
    have hlen : l.length < 2 ^ 31 := by
      rw [optBytesOK, byteSeqOK, Bool.and_eq_true] at hv
      simpa using hv.1
    rw [show encodeNullableBytes (some l)
        = varintEncode (wrapS 32 (l.length : Int)) ++ l from rfl]
    rw [wrapS32_natLen hlen, List.append_assoc, decodeNullableBytes]
    rw [varintDecode_encode _ _ (natLen_inRange32 hlen), dbind_ok]
    rw [if_neg (by omega)]
    have htn : (l.length : Int).toNat = l.length := by omega
    rw [htn, if_neg (by simp), List.take_left, List.drop_left]

lemma decodeHeaders_encode : ∀ (hs : List Header) (rest : List Nat),
    hs.all headerWF = true →
    decodeHeaders hs.length ((hs.map Header.encode).flatten ++ rest) = .ok (hs, rest) := by
  intro hs
  induction hs with
  | nil =>
    intro rest _
    simp [decodeHeaders]
  | cons h t ih =>
    intro rest hwf
    rw [List.all_cons, Bool.and_eq_true] at hwf
    obtain ⟨hh, ht⟩ := hwf
    rw [headerWF, Bool.and_eq_true, Bool.and_eq_true] at hh
    obtain ⟨⟨hutf, hkseq⟩, hvok⟩ := hh
    have hklen' : h.key.length < 2 ^ 31 := by
      rw [byteSeqOK, Bool.and_eq_true] at hkseq
      simpa using hkseq.1
    simp only [List.map_cons, List.flatten_cons, List.length_cons, List.append_assoc]
    rw [show Header.encode h
        = varintEncode (wrapS 32 (h.key.length : Int)) ++ h.key ++ encodeNullableBytes h.value
      from rfl]
    simp only [List.append_assoc]
    rw [decodeHeaders]
    rw [wrapS32_natLen hklen', varintDecode_encode _ _ (natLen_inRange32 hklen'), dbind_ok]
    rw [if_neg (by omega)]
    have htn : (h.key.length : Int).toNat = h.key.length := by omega
    rw [htn, if_neg (by simp), List.take_left, List.drop_left, if_pos hutf]
    rw [decodeNullableBytes_encode h.value hvok, dbind_ok]
    rw [ih rest ht, dbind_ok]

lemma decodeHeaders_encode_cast (hs : List Header) (rest : List Nat)
    (hwf : hs.all headerWF = true) :
    decodeHeaders (if ((hs.length : Int) < 0) then 0 else (hs.length : Int).toNat)
      ((hs.map Header.encode).flatten ++ rest) = .ok (hs, rest) := by
  rw [if_neg (by omega), show ((hs.length : Int)).toNat = hs.length by omega]
  exact decodeHeaders_encode hs rest hwf

lemma record_decode_encode (r : Record) (hwf : recordWF r = true) (rest : List Nat) :
    Record.decode (Record.encode r ++ rest) = .ok (r, rest) := by
  rw [recordWF] at hwf
  simp only [Bool.and_eq_true, decide_eq_true_eq] at hwf
  obtain ⟨⟨⟨⟨⟨⟨⟨hlen, hattr⟩, hts⟩, hoff⟩, hkey⟩, hval⟩, hhlen⟩, hhs⟩ := hwf
  rw [show Record.encode r
      = varintEncode r.length ++ encSigned 1 r.attributes ++ varlongEncode r.timestampDelta ++
        varintEncode r.offsetDelta ++ encodeNullableBytes r.key ++
        encodeNullableBytes r.value ++ varintEncode (wrapS 32 (r.headers.length : Int)) ++
        (r.headers.map Header.encode).flatten
    from rfl]
  simp only [List.append_assoc]
  rw [Record.decode]
  rw [varintDecode_encode _ _ hlen, dbind_ok]
  rw [if_neg (by simp [encSigned, beBytes_length])]
  rw [decSigned_encSigned, dbind_ok, wrapS_eq_self hattr (by norm_num)]
  rw [varlongDecode_encode _ _ hts, dbind_ok]
  rw [varintDecode_encode _ _ hoff, dbind_ok]
  rw [decodeNullableBytes_encode _ hkey, dbind_ok]
  rw [decodeNullableBytes_encode _ hval, dbind_ok]
  rw [wrapS32_natLen hhlen, varintDecode_encode _ _ (natLen_inRange32 hhlen), dbind_ok]
  rw [decodeHeaders_encode_cast _ _ hhs, dbind_ok]

lemma decodeRecords_encode : ∀ (rs : List Record) (rest : List Nat),
    rs.all recordWF = true →
    decodeRecords rs.length ((rs.map Record.encode).flatten ++ rest) = .ok (rs, rest) := by
  intro rs
  induction rs with
  | nil =>
    intro rest _
    simp [decodeRecords]
  | cons r t ih =>
    intro rest hwf
    rw [List.all_cons, Bool.and_eq_true] at hwf
    obtain ⟨hr, ht⟩ := hwf
    simp only [List.map_cons, List.flatten_cons, List.length_cons, List.append_assoc]
    rw [decodeRecords, record_decode_encode r hr, dbind_ok]
    rw [ih rest ht, dbind_ok]

/-! ### Byte ranges of the encoders and the CRC bound -/

lemma beBytes_lt (w n : Nat) : ∀ x ∈ beBytes w n, x < 256 := by
  induction w generalizing n with
  | zero => simp [beBytes]
  | succ w ih =>
    intro x hx
    rcases List.mem_cons.mp hx with hx | hx
    · subst hx
      exact Nat.mod_lt _ (by norm_num)
    · exact ih n x hx

lemma uvarintEncodeGo_lt : ∀ fuel v, v ≤ fuel → ∀ x ∈ uvarintEncodeGo fuel v, x < 256 := by
  intro fuel
  induction fuel with
  | zero =>
    intro v hv x hx
    have : v = 0 := by omega
    subst this
    simp [uvarintEncodeGo] at hx
    omega
  | succ fuel ih =>
    intro v hv x hx
    rw [uvarintEncodeGo] at hx
    by_cases hsmall : v < 128
    · rw [if_pos hsmall] at hx
      simp at hx
      omega
    · rw [if_neg hsmall] at hx
      rcases List.mem_cons.mp hx with hx | hx
      · subst hx
        have h1 : v &&& 127 < 256 := lt_of_le_of_lt Nat.and_le_right (by norm_num)
        have h2 : (128 : Nat) < 256 := by norm_num
        calc (v &&& 127) ||| 128 < 2 ^ 8 :=
              Nat.or_lt_two_pow (by norm_num at h1 ⊢; omega) (by norm_num)
          _ = 256 := by norm_num
      · have hv7 : v >>> 7 ≤ fuel := by
          rw [Nat.shiftRight_eq_div_pow]
          have := Nat.div_lt_self (by omega : 0 < v) (by norm_num : 1 < 2 ^ 7)
          omega
        exact ih (v >>> 7) hv7 x hx

lemma uvarintEncode_lt (v : Nat) : ∀ x ∈ uvarintEncode v, x < 256 :=
  uvarintEncodeGo_lt v v le_rfl

lemma varintEncode_lt (n : Int) : ∀ x ∈ varintEncode n, x < 256 :=
  uvarintEncode_lt _

lemma varlongEncode_lt (n : Int) : ∀ x ∈ varlongEncode n, x < 256 :=
  uvarintEncode_lt _

lemma encSigned_lt (w : Nat) (n : Int) : ∀ x ∈ encSigned w n, x < 256 :=
  beBytes_lt _ _

lemma encU32_lt (n : Nat) : ∀ x ∈ encU32 n, x < 256 :=
  beBytes_lt _ _

lemma byteSeqOK_lt {l : List Nat} (h : byteSeqOK l = true) : ∀ x ∈ l, x < 256 := by
  rw [byteSeqOK, Bool.and_eq_true, List.all_eq_true] at h
  intro x hx
  simpa using h.2 x hx

lemma encodeNullableBytes_lt {v : Option (List Nat)} (hv : optBytesOK v = true) :
    ∀ x ∈ encodeNullableBytes v, x < 256 := by
  cases v with
  | none => exact varintEncode_lt _
  | some l =>
    intro x hx
    rw [show encodeNullableBytes (some l)
        = varintEncode (wrapS 32 (l.length : Int)) ++ l from rfl] at hx
    rcases List.mem_append.mp hx with hx | hx
    · exact varintEncode_lt _ x hx
    · exact byteSeqOK_lt hv x hx

lemma header_encode_lt {h : Header} (hwf : headerWF h = true) :
    ∀ x ∈ Header.encode h, x < 256 := by
  rw [headerWF, Bool.and_eq_true, Bool.and_eq_true] at hwf
  obtain ⟨⟨_, hkseq⟩, hvok⟩ := hwf
  intro x hx
  rw [show Header.encode h
      = varintEncode (wrapS 32 (h.key.length : Int)) ++ h.key ++ encodeNullableBytes h.value
    from rfl] at hx
  rcases List.mem_append.mp hx with hx | hx
  · rcases List.mem_append.mp hx with hx | hx
    · exact varintEncode_lt _ x hx
    · exact byteSeqOK_lt hkseq x hx
  · exact encodeNullableBytes_lt hvok x hx

lemma Record.encode_lt {r : Record} (hwf : recordWF r = true) :
    ∀ x ∈ Record.encode r, x < 256 := by
  rw [recordWF] at hwf
  simp only [Bool.and_eq_true, decide_eq_true_eq] at hwf
  obtain ⟨⟨⟨⟨⟨⟨⟨_, _⟩, _⟩, _⟩, hkey⟩, hval⟩, _⟩, hhs⟩ := hwf
  intro x hx
  rw [show Record.encode r
      = varintEncode r.length ++ encSigned 1 r.attributes ++ varlongEncode r.timestampDelta ++
        varintEncode r.offsetDelta ++ encodeNullableBytes r.key ++
        encodeNullableBytes r.value ++ varintEncode (wrapS 32 (r.headers.length : Int)) ++
        (r.headers.map Header.encode).flatten
    from rfl] at hx
  simp only [List.mem_append] at hx
  rcases hx with ((((((hx | hx) | hx) | hx) | hx) | hx) | hx) | hx
  · exact varintEncode_lt _ x hx
  · exact encSigned_lt _ _ x hx
  · exact varlongEncode_lt _ x hx
  · exact varintEncode_lt _ x hx
  · exact encodeNullableBytes_lt hkey x hx
  · exact encodeNullableBytes_lt hval x hx
  · exact varintEncode_lt _ x hx
  · obtain ⟨lh, hlh, hxl⟩ := List.mem_flatten.mp hx
    obtain ⟨hd, hhd, rfl⟩ := List.mem_map.mp hlh
    have : headerWF hd = true := by
      rw [List.all_eq_true] at hhs
      exact hhs hd hhd
    exact header_encode_lt this x hxl

lemma encodePayload_lt {b : RecordBatch} (hrs : b.records.all recordWF = true) :
    ∀ x ∈ encodePayload b, x < 256 := by
  intro x hx
  rw [show encodePayload b
      = encSigned 2 b.attributes ++ encSigned 4 b.lastOffsetDelta ++
        encSigned 8 b.baseTimestamp ++ encSigned 8 b.maxTimestamp ++
        encSigned 8 b.producerId ++ encSigned 2 b.producerEpoch ++
        encSigned 4 b.baseSequence ++ encSigned 4 b.recordsCount ++
        (b.records.map Record.encode).flatten
    from rfl] at hx
  simp only [List.mem_append] at hx
  rcases hx with (((((((hx | hx) | hx) | hx) | hx) | hx) | hx) | hx) | hx
  · exact encSigned_lt _ _ x hx
  · exact encSigned_lt _ _ x hx
  · exact encSigned_lt _ _ x hx
  · exact encSigned_lt _ _ x hx
  · exact encSigned_lt _ _ x hx
  · exact encSigned_lt _ _ x hx
  · exact encSigned_lt _ _ x hx
  · exact encSigned_lt _ _ x hx
  · obtain ⟨lr, hlr, hxl⟩ := List.mem_flatten.mp hx
    obtain ⟨rd, hrd, rfl⟩ := List.mem_map.mp hlr
    have : recordWF rd = true := by
      rw [List.all_eq_true] at hrs
      exact hrs rd hrd
    exact Record.encode_lt this x hxl

lemma crcRound_lt {poly crc : Nat} (hp : poly < 2 ^ 32) (h : crc < 2 ^ 32) :
    crcRound poly crc < 2 ^ 32 := by
  unfold crcRound
  have hs : crc >>> 1 < 2 ^ 32 := by
    rw [Nat.shiftRight_eq_div_pow]
    exact lt_of_le_of_lt (Nat.div_le_self _ _) h
  by_cases hb : crc % 2 = 1
  · rw [if_pos hb]
    exact Nat.xor_lt_two_pow hs hp
  · rw [if_neg hb]
    exact hs

lemma crcRounds_lt {poly : Nat} (hp : poly < 2 ^ 32) :
    ∀ n crc, crc < 2 ^ 32 → crcRounds n poly crc < 2 ^ 32 := by
  intro n
  induction n with
  | zero => intro crc h; exact h
  | succ n ih => intro crc h; exact ih _ (crcRound_lt hp h)

lemma crcAux_lt {poly : Nat} (hp : poly < 2 ^ 32) :
    ∀ (l : List Nat) crc, (∀ x ∈ l, x < 256) → crc < 2 ^ 32 → crcAux poly l crc < 2 ^ 32 := by
  intro l
  induction l with
  | nil => intro crc _ h; exact h
  | cons b rest ih =>
    intro crc hl h
    rw [crcAux]
    refine ih _ (fun x hx => hl x (List.mem_cons_of_mem _ hx)) ?_
    refine crcRounds_lt hp _ _ (Nat.xor_lt_two_pow h ?_)
    have := hl b (List.mem_cons_self _ _)
    omega

lemma crc32_lt {l : List Nat} (hl : ∀ x ∈ l, x < 256) : crc32 l < 2 ^ 32 := by
  unfold crc32
  exact Nat.xor_lt_two_pow (crcAux_lt (by norm_num) l _ hl (by norm_num)) (by norm_num)

lemma encode_backpatch (b : RecordBatch) :
    RecordBatch.encode (backpatch b) = RecordBatch.encode b := rfl

lemma decodeRecords_encode_len (rs : List Record) (rest : List Nat)
    (hwf : rs.all recordWF = true) (n : Nat) (hn : n = rs.length) :
    decodeRecords n ((rs.map Record.encode).flatten ++ rest) = .ok (rs, rest) := by
  rw [hn]
  exact decodeRecords_encode rs rest hwf

lemma RecordBatch.decode_encode (b : RecordBatch) (hwf : batchWF b = true)
    (rest : List Nat) :
    RecordBatch.decode (RecordBatch.encode b ++ rest) = .ok (backpatch b, rest) := by
  rw [batchWF] at hwf
  simp only [Bool.and_eq_true, decide_eq_true_eq] at hwf
  obtain ⟨⟨⟨⟨⟨⟨⟨⟨⟨⟨⟨⟨⟨hbo, hple⟩, hmg⟩, hat⟩, hlod⟩, hbt⟩, hmt⟩, hpid⟩, hpe⟩,
    hbs⟩, hrcr⟩, hrc⟩, hplen⟩, hrs⟩ := hwf
  have hpay : ∀ x ∈ encodePayload b, x < 256 := encodePayload_lt hrs
  have hcrclt : crc32 (encodePayload b) < 2 ^ 32 := crc32_lt hpay
  have h9len : 9 + (encodePayload b).length < 2 ^ 31 := by omega
  rw [show RecordBatch.encode b
      = encSigned 8 b.baseOffset ++
        encSigned 4 (wrapS 32 ((9 + (encodePayload b).length : Nat) : Int)) ++
        encSigned 4 b.partitionLeaderEpoch ++ encSigned 1 b.magic ++
        encU32 (crc32 (encodePayload b)) ++ encodePayload b
    from rfl]
  rw [wrapS32_natLen h9len]
  simp only [List.append_assoc]
  rw [RecordBatch.decode]
  rw [decSigned_encSigned, dbind_ok, wrapS_eq_self hbo (by norm_num)]
  rw [decSigned_encSigned, dbind_ok, wrapS32_natLen h9len]
  rw [decSigned_encSigned, dbind_ok, wrapS_eq_self hple (by norm_num)]
  rw [decSigned_encSigned, dbind_ok, wrapS_eq_self hmg (by norm_num)]
  rw [decU32_encU32 _ _ hcrclt, dbind_ok]
  have hwrapU : wrapU 64 ((9 + (encodePayload b).length : Nat) : Int)
      = 9 + (encodePayload b).length := by
    have hq : ((9 + (encodePayload b).length : Nat) : Int) < (2:Int) ^ 64 := by
      have h2 : ((2:Int) ^ 64) = 18446744073709551616 := by norm_num
      rw [h2]
      omega
    rw [wrapU_of_nonneg (by positivity) hq]
    omega
  rw [hwrapU]
  have hE : ((9 + (encodePayload b).length) + (2 ^ 64 - 9)) % 2 ^ 64
      = (encodePayload b).length := by omega
  rw [hE]
  rw [if_neg (by rw [List.length_append]; omega)]
  rw [List.take_left]
  rw [if_neg (by simp)]
  have hexp : encodePayload b ++ rest
      = encSigned 2 b.attributes ++ (encSigned 4 b.lastOffsetDelta ++
        (encSigned 8 b.baseTimestamp ++ (encSigned 8 b.maxTimestamp ++
        (encSigned 8 b.producerId ++ (encSigned 2 b.producerEpoch ++
        (encSigned 4 b.baseSequence ++ (encSigned 4 b.recordsCount ++
        ((b.records.map Record.encode).flatten ++ rest)))))))) := by
    rw [show encodePayload b
        = encSigned 2 b.attributes ++ encSigned 4 b.lastOffsetDelta ++
          encSigned 8 b.baseTimestamp ++ encSigned 8 b.maxTimestamp ++
          encSigned 8 b.producerId ++ encSigned 2 b.producerEpoch ++
          encSigned 4 b.baseSequence ++ encSigned 4 b.recordsCount ++
          (b.records.map Record.encode).flatten
      from rfl]
    simp only [List.append_assoc]
  rw [hexp]
  rw [decSigned_encSigned, dbind_ok, wrapS_eq_self hat (by norm_num)]
  rw [decSigned_encSigned, dbind_ok, wrapS_eq_self hlod (by norm_num)]
  rw [decSigned_encSigned, dbind_ok, wrapS_eq_self hbt (by norm_num)]
  rw [decSigned_encSigned, dbind_ok, wrapS_eq_self hmt (by norm_num)]
  rw [decSigned_encSigned, dbind_ok, wrapS_eq_self hpid (by norm_num)]
  rw [decSigned_encSigned, dbind_ok, wrapS_eq_self hpe (by norm_num)]
  rw [decSigned_encSigned, dbind_ok, wrapS_eq_self hbs (by norm_num)]
  rw [decSigned_encSigned, dbind_ok, wrapS_eq_self hrcr (by norm_num)]
  have hcount : (if b.recordsCount < 0 then 0 else b.recordsCount.toNat)
      = b.records.length := by
    rw [hrc, if_neg (by omega)]
    omega
  rw [hcount, decodeRecords_encode _ _ hrs, dbind_ok]
  rfl

/-! ### Claim theorems -/

/-- C1.  The claim says the `crc` field emitted by `RecordBatch::encode` is
the CRC32C (Castagnoli) checksum of exactly the payload bytes and that
`decode` verifies the stored crc against the CRC32C of the same region.
The code instead computes CRC-32 (IEEE, `crc32fast::Hasher`) over that
region: the emitted crc field (bytes 17..21 of the envelope) is `crc32` of
the payload, which differs from `crc32c` of the payload on the concrete
batch `sampleBatch`, and `decode` accepts the encoding even though its
stored crc is not the Castagnoli checksum of the payload. -/
theorem crc_field_is_ieee_crc32_not_castagnoli :
    (∀ b : RecordBatch, RecordBatch.encode b
      = encSigned 8 b.baseOffset ++
        encSigned 4 (wrapS 32 ((9 + (encodePayload b).length : Nat) : Int)) ++
        encSigned 4 b.partitionLeaderEpoch ++ encSigned 1 b.magic ++
        encU32 (crc32 (encodePayload b)) ++ encodePayload b) ∧
    ((RecordBatch.encode sampleBatch).drop 17).take 4
      = encU32 (crc32 (encodePayload sampleBatch)) ∧
    crc32 (encodePayload sampleBatch) ≠ crc32c (encodePayload sampleBatch) ∧
    (RecordBatch.decode (RecordBatch.encode sampleBatch)).isOk = true ∧
    sampleBatch.crc ≠ crc32c (encodePayload sampleBatch) :=
  ⟨fun _ => rfl, by decide, by decide, by decide, by decide⟩

/-- C2 counterexample.  Decoding `encode(sampleBatch)` does not return
`sampleBatch` field-by-field: the decoded `batch_length` is the back-patched
49, not the stored 0, so `decode(encode(b)) = b` fails at `b = sampleBatch`. -/
theorem roundtrip_not_identity_on_stored_length :
    RecordBatch.decode (RecordBatch.encode sampleBatch) = .ok (backpatch sampleBatch, []) ∧
    (backpatch sampleBatch).batchLength = 49 ∧ sampleBatch.batchLength = 0 ∧
    backpatch sampleBatch ≠ sampleBatch := by
  refine ⟨?_, by decide, by decide, by decide⟩
  have h := RecordBatch.decode_encode sampleBatch (by decide) []
  rwa [List.append_nil] at h

/-- C2 (amended).  For every well-formed batch `b` (integer fields in the
range of their Rust types, `records_count = len(records)`, byte sequences
faithful `Vec<u8>` images, header keys valid UTF-8, payload small enough
that `batch_length` fits an i32), decoding `encode(b)` succeeds and yields
`b` with `batch_length` and `crc` replaced by the computed (back-patched)
values, consuming the whole buffer; re-encoding that decoded batch yields a
byte sequence identical to `encode(b)`.  Hence `decode(encode(b)) = b`
exactly on batches whose stored `batch_length` and `crc` already equal the
computed values. -/
theorem recordBatch_roundtrip_backpatched (b : RecordBatch) (h : batchWF b = true) :
    RecordBatch.decode (RecordBatch.encode b) = .ok (backpatch b, []) ∧
    RecordBatch.encode (backpatch b) = RecordBatch.encode b := by
  constructor
  · have h2 := RecordBatch.decode_encode b h []
    rwa [List.append_nil] at h2
  · exact encode_backpatch b

theorem recordBatch_roundtrip_backpatched_witness :
    batchWF (backpatch sampleBatch) = true ∧
    (RecordBatch.decode (RecordBatch.encode (backpatch sampleBatch))
        = .ok (backpatch (backpatch sampleBatch), []) ∧
      RecordBatch.encode (backpatch (backpatch sampleBatch))
        = RecordBatch.encode (backpatch sampleBatch)) ∧
    backpatch (backpatch sampleBatch) = backpatch sampleBatch :=
  ⟨by decide, recordBatch_roundtrip_backpatched (backpatch sampleBatch) (by decide), by decide⟩

/-- C3 counterexample.  With `c3Batch.base_offset - base_offset = 2^31`
(outside the i32 range), `Segment::append` does not fail with an
OffsetOverflow error: it appends normally, writing an index entry whose
relative offset is the two's-complement truncation `-2^31` and growing the
log and `current_size`. -/
theorem append_overflow_not_rejected :
    ¬ inRangeS 32 (c3Batch.baseOffset - (Segment.new 0).baseOffset) ∧
    ((Segment.new 0).append c3Batch).index
      = [{ relativeOffset := -2147483648, physicalPosition := 0 }] ∧
    ((Segment.new 0).append c3Batch).log = RecordBatch.encode c3Batch ∧
    ((Segment.new 0).append c3Batch).currentSize = 61 := by
  refine ⟨by decide, by decide, ?_, by decide⟩
  rfl

/-- C3 (amended).  `Segment::append` performs no overflow check: for every
segment and batch (whatever the offset difference) the append succeeds
(absent I/O failure, which the model assumes away), the batch bytes are
appended to the log, an index entry is written whose relative offset is the
`as i32` two's-complement truncation of the i64 difference, a time-index
entry is written, and `current_size` grows (wrapping in u32) by the encoded
length; no OffsetOverflow error exists. -/
theorem segment_append_truncates_relative_offset (s : Segment) (b : RecordBatch) :
    (s.append b).log = s.log ++ RecordBatch.encode b ∧
    (s.append b).index = s.index ++
      [{ relativeOffset := wrapS 32 (wrapS 64 (b.baseOffset - s.baseOffset)),
         physicalPosition := s.currentSize }] ∧
    (s.append b).timeindex = s.timeindex ++
      [{ timestamp := b.baseTimestamp,
         relativeOffset := wrapS 32 (wrapS 64 (b.baseOffset - s.baseOffset)) }] ∧
    (s.append b).currentSize
      = (s.currentSize + (RecordBatch.encode b).length % 2 ^ 32) % 2 ^ 32 ∧
    (s.append b).baseOffset = s.baseOffset :=
  ⟨rfl, rfl, rfl, rfl, rfl⟩

/-- C4 counterexample.  On a segment whose index file is empty and whose log
file is non-empty, the point-read position search for an offset ≥
base_offset returns `None` (and `read` returns `Ok(None)`), not
position 0 as the claim states. -/
theorem empty_index_returns_none_not_zero :
    c4Seg.index = [] ∧ c4Seg.log ≠ [] ∧ ¬ ((0:Int) < c4Seg.baseOffset) ∧
    Segment.findPhysicalPosition 10 c4Seg 0 = some (.ok none) ∧
    Segment.read 10 c4Seg 0 = some (.ok none) := by
  exact ⟨rfl, by decide, by decide, by decide, by decide⟩

/-- C4 (amended).  Whenever the index file is empty, `find_physical_position`
returns `Ok(None)` regardless of the log file contents and of the requested
offset (the `file_size == 0` early return), and `Segment::read` therefore
returns `Ok(None)` without decoding anything. -/
theorem findPhysicalPosition_empty_index (fuel : Nat) (s : Segment) (offset : Int)
    (h : s.index = []) :
    s.findPhysicalPosition fuel offset = some (.ok none) ∧
    Segment.read fuel s offset = some (.ok none) := by
  have h1 : s.findPhysicalPosition fuel offset = some (.ok none) := by
    rw [Segment.findPhysicalPosition]
    by_cases hlt : offset < s.baseOffset
    · rw [if_pos hlt]
    · rw [if_neg hlt, if_pos (by rw [h]; rfl)]
  refine ⟨h1, ?_⟩
  rw [Segment.read, h1]

theorem findPhysicalPosition_empty_index_witness :
    (Segment.new 5).index = [] ∧
    (Segment.findPhysicalPosition 3 (Segment.new 5) 7 = some (.ok none) ∧
      Segment.read 3 (Segment.new 5) 7 = some (.ok none)) :=
  ⟨rfl, findPhysicalPosition_empty_index 3 (Segment.new 5) 7 rfl⟩

/-- C5.  The claim says the binary search is guarded against `high`
underflow and returns position 0 when the key precedes all entries.  The
code has no guard: with one entry of relative offset 10 and target relative
offset 5, the first iteration executes `high = mid - 1` with `mid = 0`,
wrapping `high` to 2^64-1 (release semantics; debug builds panic on the
subtraction); the next iteration seeks far past the end of the index file
and `read_exact` fails, so `find_physical_position` returns an I/O error
instead of `Ok(Some(0))`.  The local `physical_position = 0` that the exit
path would return is never reached. -/
theorem bsearch_high_underflow_fails :
    c5Seg.index = [{ relativeOffset := 10, physicalPosition := 0 }] ∧
    wrapS 32 (wrapS 64 ((5:Int) - c5Seg.baseOffset)) = 5 ∧ (5:Int) < 10 ∧
    Segment.findPhysicalPosition 10 c5Seg 5
      = some (.error "IO error when reading index file") ∧
    bsearchLoop c5Seg.index 5 10 0 0 0
      = some (.error "IO error when reading index file") := by
  exact ⟨rfl, by decide, by decide, by decide, by decide⟩

/-- C10.  `remove_segment` checks the single-segment condition before the
bounds check: on a log holding exactly one segment every index - in range
or not - yields the last-segment error, and when more than one segment is
held an out-of-range index yields the out-of-bounds error.  Both checks
precede the removal and the file deletions, so an erroring call changes
nothing (the model returns no new state on error). -/
theorem removeSegment_guard_order (p : PartitionLog) (i : Nat) :
    (p.segments.length = 1 → p.removeSegment i = .error "Cannot remove the last segment") ∧
    (p.segments.length ≠ 1 → p.segments.length ≤ i →
      p.removeSegment i = .error "Segment index out of bounds") := by
  constructor
  · intro h
    rw [PartitionLog.removeSegment, if_pos h]
  · intro h hi
    rw [PartitionLog.removeSegment, if_neg h, if_pos hi]

theorem removeSegment_guard_order_witness :
    (PartitionLog.new 16 0 0).segments.length = 1 ∧
    (PartitionLog.new 16 0 0).removeSegment 5 = .error "Cannot remove the last segment" := by
  refine ⟨by decide, ?_⟩
  exact (removeSegment_guard_order (PartitionLog.new 16 0 0) 5).1 (by decide)

/-- C9 (amended).  When the partition log has at least two segments, the
time-retention loop examines the oldest one.  A metadata read error
(`env = ioErr`) indeed makes it not-expired and returns `Ok` with the log
unchanged, as the spec says; but a missing modified time or a
future-in-the-past modified time (clock skew) do NOT fall in that bucket:
`enforce_retention_by_time` aborts with `Err("Failed to get modified
time")` respectively `Err("Failed to get duration")` instead of treating
the segment as not-expired. -/
theorem retention_by_time_error_paths (env : Int → MetaOutcome) (p : PartitionLog)
    (s s2 : Segment) (rest : List Segment)
    (h : p.segments = s :: s2 :: rest) :
    (env s.baseOffset = .ioErr → p.enforceRetentionByTime env = .ok p) ∧
    (env s.baseOffset = .noModifiedTime →
      p.enforceRetentionByTime env = .error "Failed to get modified time") ∧
    (env s.baseOffset = .futureModified →
      p.enforceRetentionByTime env = .error "Failed to get duration") := by
  refine ⟨fun henv => ?_, fun henv => ?_, fun henv => ?_⟩
  · have hloop : retainTimeLoop env p.retentionMs p.segments = .ok (s :: s2 :: rest) := by
      rw [h, retainTimeLoop, henv]
    rw [PartitionLog.enforceRetentionByTime, hloop, ebind_ok, ← h]
  · have hloop : retainTimeLoop env p.retentionMs p.segments
        = .error "Failed to get modified time" := by
      rw [h, retainTimeLoop, henv]
    rw [PartitionLog.enforceRetentionByTime, hloop, ebind_error]
  · have hloop : retainTimeLoop env p.retentionMs p.segments
        = .error "Failed to get duration" := by
      rw [h, retainTimeLoop, henv]
    rw [PartitionLog.enforceRetentionByTime, hloop, ebind_error]

/-- C9 counterexample: on the two-segment log `c9Log`, a failing
`metadata.modified()` aborts with an error and a future modified time
aborts with an error, contradicting the claim that all three failure modes
return without error; only the metadata I/O error path does. -/
theorem retention_by_time_cex :
    c9Log.enforceRetentionByTime (fun _ => .noModifiedTime)
      = .error "Failed to get modified time" ∧
    c9Log.enforceRetentionByTime (fun _ => .futureModified)
      = .error "Failed to get duration" ∧
    c9Log.enforceRetentionByTime (fun _ => .ioErr) = .ok c9Log :=
  ⟨rfl, rfl, rfl⟩

/-- Witness for the C9 theorem at the concrete log `c9Log`. -/
theorem retention_by_time_error_paths_witness :
    c9Log.segments = Segment.new 0 :: Segment.new 5 :: [] ∧
    c9Log.enforceRetentionByTime (fun _ => .noModifiedTime)
      = .error "Failed to get modified time" :=
  ⟨rfl, (retention_by_time_error_paths (fun _ => .noModifiedTime) c9Log
      (Segment.new 0) (Segment.new 5) [] rfl).2.1 rfl⟩

/-- The one-step unfolding of `PartitionLog::append` when the last segment
is `active`. -/
lemma PartitionLog.append_eq (p : PartitionLog) (b : RecordBatch) (active : Segment)
    (h : p.segments.getLast? = some active) :
    p.append b = .ok { p with segments :=
        if (active.append b).currentSize ≥ p.maxSegmentSize then
          (p.segments.dropLast ++ [active.append b]) ++
            [Segment.new (wrapS 64 (b.baseOffset + b.recordsCount))]
        else p.segments.dropLast ++ [active.append b] } := by
  rw [PartitionLog.append, h, okOr_some, ebind_ok]
  by_cases hc : (active.append b).currentSize ≥ p.maxSegmentSize
  · rw [if_pos hc, if_pos hc]
  · rw [if_neg hc, if_neg hc]

/-- C7.  `PartitionLog::append` on a log whose last segment is `active`:
the batch is always appended to `active` in place (its log grows by the
encoded batch, even when that batch alone is bigger than
`max_segment_size` — the threshold is soft); afterwards a new empty
segment with base offset `batch.base_offset + batch.records_count`
(wrapping i64) is pushed at the tail exactly when the grown segment's
`current_size` is ≥ `max_segment_size`; in particular ending at
`max_segment_size - 1` does not roll. -/
theorem partitionLog_append_roll (p : PartitionLog) (b : RecordBatch) (active : Segment)
    (h : p.segments.getLast? = some active) :
    p.append b = .ok { p with segments :=
        if (active.append b).currentSize ≥ p.maxSegmentSize then
          (p.segments.dropLast ++ [active.append b]) ++
            [Segment.new (wrapS 64 (b.baseOffset + b.recordsCount))]
        else p.segments.dropLast ++ [active.append b] } ∧
    (Segment.new (wrapS 64 (b.baseOffset + b.recordsCount))).currentSize = 0 ∧
    (Segment.new (wrapS 64 (b.baseOffset + b.recordsCount))).log = [] ∧
    (active.append b).log = active.log ++ RecordBatch.encode b ∧
    ((active.append b).currentSize + 1 = p.maxSegmentSize →
      p.append b = .ok { p with segments := p.segments.dropLast ++ [active.append b] }) := by
  have hmain := PartitionLog.append_eq p b active h
  refine ⟨hmain, rfl, rfl, rfl, fun hm => ?_⟩
  rw [hmain, if_neg (by omega)]

/-- Witness for the C7 theorem on a fresh log and `sampleBatch`. -/
theorem partitionLog_append_roll_witness :
    (PartitionLog.new 100 0 0).segments.getLast? = some (Segment.new 0) ∧
    ((Segment.new 0).append sampleBatch).log
      = (Segment.new 0).log ++ RecordBatch.encode sampleBatch :=
  ⟨rfl, (partitionLog_append_roll (PartitionLog.new 100 0 0) sampleBatch
      (Segment.new 0) rfl).2.2.2.1⟩

lemma strictlyIncr_iff_chain (l : List Int) :
    strictlyIncr l = true ↔ l.Chain' (· < ·) := by
  induction l with
  | nil => simp [strictlyIncr]
  | cons a t ih =>
    cases t with
    | nil => simp [strictlyIncr]
    | cons b rest =>
      rw [strictlyIncr, Bool.and_eq_true, decide_eq_true_iff, List.chain'_cons]
      exact and_congr Iff.rfl ih

lemma strictlyIncr_iff_pairwise (l : List Int) :
    strictlyIncr l = true ↔ l.Pairwise (· < ·) := by
  rw [strictlyIncr_iff_chain, List.chain'_iff_pairwise]

lemma strictlyIncr_of_sublist (segs segs' : List Segment) (h : List.Sublist segs' segs)
    (hwf : strictlyIncr (segs.map (fun s => s.baseOffset)) = true) :
    strictlyIncr (segs'.map (fun s => s.baseOffset)) = true := by
  rw [strictlyIncr_iff_pairwise] at hwf ⊢
  exact List.Pairwise.sublist (h.map _) hwf

lemma retainBytesLoop_suffix (rb : Nat) :
    (l : List Segment) → List.IsSuffix (retainBytesLoop rb l) l
  | [] => by rw [retainBytesLoop]
  | [s] => by rw [retainBytesLoop]
  | s :: s2 :: rest => by
    rw [retainBytesLoop]
    split
    · exact (retainBytesLoop_suffix rb (s2 :: rest)).trans (List.suffix_cons s (s2 :: rest))
    · exact List.suffix_rfl

lemma retainBytesLoop_ne_nil (rb : Nat) :
    (l : List Segment) → l ≠ [] → retainBytesLoop rb l ≠ []
  | [], h => absurd rfl h
  | [s], _ => by rw [retainBytesLoop]; simp
  | s :: s2 :: rest, _ => by
    rw [retainBytesLoop]
    split
    · exact retainBytesLoop_ne_nil rb (s2 :: rest) (by simp)
    · simp

lemma retainTimeLoop_ok (env : Int → MetaOutcome) (rm : Nat) :
    (l : List Segment) → (l' : List Segment) → retainTimeLoop env rm l = .ok l' →
    List.IsSuffix l' l ∧ (l ≠ [] → l' ≠ [])
  | [], l', h => by
    rw [retainTimeLoop] at h
    injection h with h
    subst h
    exact ⟨List.suffix_rfl, fun hc => absurd rfl hc⟩
  | [s], l', h => by
    rw [retainTimeLoop] at h
    injection h with h
    subst h
    exact ⟨List.suffix_rfl, fun _ => by simp⟩
  | s :: s2 :: rest, l', h => by
    rw [retainTimeLoop] at h
    split at h
    · injection h with h
      subst h
      exact ⟨List.suffix_rfl, fun _ => by simp⟩
    · exact Except.noConfusion h
    · exact Except.noConfusion h
    · split at h
      · obtain ⟨h1, h2⟩ := retainTimeLoop_ok env rm (s2 :: rest) l' h
        exact ⟨h1.trans (List.suffix_cons s (s2 :: rest)), fun _ => h2 (by simp)⟩
      · injection h with h
        subst h
        exact ⟨List.suffix_rfl, fun _ => by simp⟩

lemma enforceRetentionByTime_ok (env : Int → MetaOutcome) (p q : PartitionLog)
    (h : p.enforceRetentionByTime env = .ok q) :
    List.IsSuffix q.segments p.segments ∧ (p.segments ≠ [] → q.segments ≠ []) := by
  rw [PartitionLog.enforceRetentionByTime] at h
  cases hrt : retainTimeLoop env p.retentionMs p.segments with
  | error e => rw [hrt, ebind_error] at h; exact Except.noConfusion h
  | ok l' =>
    rw [hrt, ebind_ok] at h
    injection h with h
    subst h
    exact retainTimeLoop_ok env p.retentionMs p.segments l' hrt

lemma enforceRetention_ok (env : Int → MetaOutcome) (p q : PartitionLog)
    (h : p.enforceRetention env = .ok q) :
    List.IsSuffix q.segments p.segments ∧ (p.segments ≠ [] → q.segments ≠ []) := by
  rw [PartitionLog.enforceRetention] at h
  split at h
  · rw [show p.enforceRetentionByBytes
        = .ok { p with segments := retainBytesLoop p.retentionBytes p.segments } from rfl,
      ebind_ok] at h
    split at h
    · obtain ⟨h1, h2⟩ := enforceRetentionByTime_ok env _ q h
      refine ⟨h1.trans (retainBytesLoop_suffix p.retentionBytes p.segments), fun hne => ?_⟩
      exact h2 (retainBytesLoop_ne_nil p.retentionBytes p.segments hne)
    · injection h with h
      subst h
      exact ⟨retainBytesLoop_suffix p.retentionBytes p.segments,
        retainBytesLoop_ne_nil p.retentionBytes p.segments⟩
  · rw [ebind_ok] at h
    split at h
    · exact enforceRetentionByTime_ok env p q h
    · injection h with h
      subst h
      exact ⟨List.suffix_rfl, fun hne => hne⟩

lemma removeSegment_ok (p : PartitionLog) (i : Nat) (q : PartitionLog)
    (h : p.removeSegment i = .ok q) :
    q.segments = p.segments.eraseIdx i ∧ p.segments.length ≠ 1 ∧ i < p.segments.length := by
  by_cases h1 : p.segments.length = 1
  · rw [PartitionLog.removeSegment, if_pos h1] at h
    exact Except.noConfusion h
  · by_cases h2 : p.segments.length ≤ i
    · rw [PartitionLog.removeSegment, if_neg h1, if_pos h2] at h
      exact Except.noConfusion h
    · rw [PartitionLog.removeSegment, if_neg h1, if_neg h2] at h
      injection h with h
      subst h
      exact ⟨rfl, h1, by omega⟩

lemma all_lt_of_pairwise_concat (l : List Int) (m x : Int)
    (hp : (l ++ [m]).Pairwise (· < ·)) (hm : m < x) :
    ∀ a ∈ l ++ [m], a < x := by
  rw [List.pairwise_append] at hp
  intro a ha
  rcases List.mem_append.1 ha with h | h
  · exact lt_trans (hp.2.2 a h m (List.mem_singleton_self m)) hm
  · rw [List.mem_singleton.1 h]
    exact hm

/-- C8 (amended).  Starting from a well-formed log (non-empty segment list,
strictly increasing base offsets): `remove_segment` preserves both
invariants whenever it succeeds (its guards keep the list non-empty, and
erasing an element of a strictly increasing list keeps it strictly
increasing); `enforce_retention` preserves both invariants (both retention
loops only drop a prefix of the list and stop at one remaining segment);
and `append` preserves both invariants PROVIDED the roll target
`batch.base_offset + batch.records_count` (wrapping i64) strictly exceeds
the active segment's base offset — without that proviso the claim fails
(`partitionLog_monotonicity_cex`), since `append` never validates the
batch's claimed offsets. -/
theorem partitionLog_invariants (p : PartitionLog) (hwf : p.wellFormed) :
    (∀ i q, p.removeSegment i = .ok q → q.wellFormed) ∧
    (∀ env q, p.enforceRetention env = .ok q → q.wellFormed) ∧
    (∀ b active q, p.segments.getLast? = some active →
      active.baseOffset < wrapS 64 (b.baseOffset + b.recordsCount) →
      p.append b = .ok q → q.wellFormed) := by
  refine ⟨fun i q h => ?_, fun env q h => ?_, fun b active q hlast hlt happ => ?_⟩
  · obtain ⟨hq, h1, h2⟩ := removeSegment_ok p i q h
    constructor
    · rw [hq]
      intro hnil
      have hlen : (p.segments.eraseIdx i).length
          = if i < p.segments.length then p.segments.length - 1 else p.segments.length :=
        List.length_eraseIdx p.segments i
      rw [hnil, if_pos h2] at hlen
      simp only [List.length_nil] at hlen
      omega
    · rw [hq]
      exact strictlyIncr_of_sublist _ _ (List.eraseIdx_sublist _ i) hwf.2
  · obtain ⟨h1, h2⟩ := enforceRetention_ok env p q h
    exact ⟨h2 hwf.1, strictlyIncr_of_sublist _ _ h1.sublist hwf.2⟩
  · have hne : p.segments ≠ [] := by
      intro hnil
      rw [hnil] at hlast
      exact Option.noConfusion hlast
    have hga : p.segments.getLast hne = active := by
      have hg := List.getLast?_eq_getLast p.segments hne
      rw [hg] at hlast
      injection hlast
    have hsplit : p.segments.dropLast ++ [active] = p.segments := by
      rw [← hga]
      exact List.dropLast_append_getLast hne
    have hbases : (p.segments.dropLast ++ [active.append b]).map (fun s => s.baseOffset)
        = p.segments.map (fun s => s.baseOffset) := by
      conv_rhs => rw [← hsplit]
      rw [List.map_append, List.map_append]
      rfl
    have hbases2 : p.segments.map (fun s => s.baseOffset)
        = p.segments.dropLast.map (fun s => s.baseOffset) ++ [active.baseOffset] := by
      conv_lhs => rw [← hsplit]
      rw [List.map_append]
      rfl
    rw [PartitionLog.append_eq p b active hlast] at happ
    injection happ with happ
    subst happ
    by_cases hc : (active.append b).currentSize ≥ p.maxSegmentSize
    · rw [if_pos hc]
      show (p.segments.dropLast ++ [active.append b]) ++
            [Segment.new (wrapS 64 (b.baseOffset + b.recordsCount))] ≠ [] ∧
          strictlyIncr (((p.segments.dropLast ++ [active.append b]) ++
            [Segment.new (wrapS 64 (b.baseOffset + b.recordsCount))]).map
              (fun s => s.baseOffset)) = true
      refine ⟨by simp, ?_⟩
      have hnewmap : ([Segment.new (wrapS 64 (b.baseOffset + b.recordsCount))].map
          (fun s => s.baseOffset)) = [wrapS 64 (b.baseOffset + b.recordsCount)] := rfl
      rw [List.map_append, hbases, hnewmap, strictlyIncr_iff_pairwise, List.pairwise_append]
      refine ⟨(strictlyIncr_iff_pairwise _).1 hwf.2, List.pairwise_singleton _ _, ?_⟩
      intro a ha b' hb'
      rw [List.mem_singleton.1 hb']
      have hp' : (p.segments.dropLast.map (fun s => s.baseOffset)
          ++ [active.baseOffset]).Pairwise (· < ·) := by
        rw [← hbases2]
        exact (strictlyIncr_iff_pairwise _).1 hwf.2
      rw [hbases2] at ha
      exact all_lt_of_pairwise_concat _ _ _ hp' hlt a ha
    · rw [if_neg hc]
      show p.segments.dropLast ++ [active.append b] ≠ [] ∧
          strictlyIncr ((p.segments.dropLast ++ [active.append b]).map
            (fun s => s.baseOffset)) = true
      refine ⟨by simp, ?_⟩
      rw [hbases]
      exact hwf.2

/-- C8 counterexample: `append` alone does not preserve the
strictly-increasing invariant.  On a log with `max_segment_size = 1`,
appending `c8A` (claims 1 record at offset 0) rolls to a segment at base
offset 1; appending `c8B` (claims 0 records at offset 0) then rolls to a
segment at base offset 0 + 0 = 0, giving base offsets [0, 1, 0] — not
strictly increasing. -/
theorem partitionLog_monotonicity_cex :
    (ebind ((PartitionLog.new 1 0 0).append c8A) (fun q => q.append c8B)).map
        (fun q => (q.segments.map (fun s => s.baseOffset),
          strictlyIncr (q.segments.map (fun s => s.baseOffset))))
      = .ok ([0, 1, 0], false) := by
  decide

/-- Witness for the C8 theorem on the two-segment log `c9Log`. -/
theorem partitionLog_invariants_witness :
    c9Log.wellFormed ∧
    ({ c9Log with segments := [Segment.new 5] } : PartitionLog).wellFormed :=
  ⟨⟨by decide, by decide⟩,
    (partitionLog_invariants c9Log ⟨by decide, by decide⟩).1 0
      { c9Log with segments := [Segment.new 5] } (by decide)⟩

lemma encSigned_length (w : Nat) (n : Int) : (encSigned w n).length = w := by
  rw [encSigned]
  exact beBytes_length _ _

lemma encU32_length (n : Nat) : (encU32 n).length = 4 := by
  rw [encU32]
  exact beBytes_length _ _

lemma encode_length (b : RecordBatch) :
    (RecordBatch.encode b).length = 21 + (encodePayload b).length := by
  rw [show RecordBatch.encode b
      = encSigned 8 b.baseOffset ++
        encSigned 4 (wrapS 32 ((9 + (encodePayload b).length : Nat) : Int)) ++
        encSigned 4 b.partitionLeaderEpoch ++ encSigned 1 b.magic ++
        encU32 (crc32 (encodePayload b)) ++ encodePayload b from rfl]
  simp only [List.length_append, encSigned_length, encU32_length]

lemma encodeAll_nil : encodeAll [] = [] := rfl

lemma encodeAll_cons (b : RecordBatch) (bs : List RecordBatch) :
    encodeAll (b :: bs) = RecordBatch.encode b ++ encodeAll bs := by
  rw [encodeAll, encodeAll, List.map_cons, List.flatten_cons]

lemma encodeAll_append (l1 l2 : List RecordBatch) :
    encodeAll (l1 ++ l2) = encodeAll l1 ++ encodeAll l2 := by
  rw [encodeAll, encodeAll, encodeAll, List.map_append, List.flatten_append]

/-- `read_next_batch` at the byte boundary between two well-formed encoded
batches returns the first following batch with its full envelope size. -/
lemma readNextBatch_at (log : List Nat) (cursor : Nat) (b : RecordBatch)
    (rest : List Nat) (hwf : batchWF b = true)
    (hdrop : log.drop cursor = RecordBatch.encode b ++ rest) :
    readNextBatch log cursor = .ok (some (backpatch b, (RecordBatch.encode b).length)) := by
  have hwf' := hwf
  simp only [batchWF, Bool.and_eq_true, decide_eq_true_eq] at hwf'
  have h9 : 9 + (encodePayload b).length < 2 ^ 31 := by
    have := hwf'.1.2
    omega
  have hlen : (RecordBatch.encode b).length = 21 + (encodePayload b).length := encode_length b
  have htot : (RecordBatch.encode b ++ rest).length
      = 21 + (encodePayload b).length + rest.length := by
    rw [List.length_append, hlen]
  have hsplit : RecordBatch.encode b ++ rest
      = (encSigned 8 b.baseOffset ++
          encSigned 4 (wrapS 32 ((9 + (encodePayload b).length : Nat) : Int))) ++
        (encSigned 4 b.partitionLeaderEpoch ++ (encSigned 1 b.magic ++
          (encU32 (crc32 (encodePayload b)) ++ (encodePayload b ++ rest)))) := by
    rw [show RecordBatch.encode b
        = encSigned 8 b.baseOffset ++
          encSigned 4 (wrapS 32 ((9 + (encodePayload b).length : Nat) : Int)) ++
          encSigned 4 b.partitionLeaderEpoch ++ encSigned 1 b.magic ++
          encU32 (crc32 (encodePayload b)) ++ encodePayload b from rfl]
    simp only [List.append_assoc]
  have h12 : (encSigned 8 b.baseOffset ++
      encSigned 4 (wrapS 32 ((9 + (encodePayload b).length : Nat) : Int))).length = 12 := by
    rw [List.length_append, encSigned_length, encSigned_length]
  have hfield : ((RecordBatch.encode b ++ rest).take 12).drop 8
      = encSigned 4 (wrapS 32 ((9 + (encodePayload b).length : Nat) : Int)) := by
    rw [hsplit, List.take_left' h12, List.drop_left' (encSigned_length 8 b.baseOffset)]
  have hinner : fromBe (encSigned 4 (wrapS 32 ((9 + (encodePayload b).length : Nat) : Int)))
      = 9 + (encodePayload b).length := by
    rw [wrapS32_natLen h9, encSigned, fromBe_beBytes,
      wrapU_of_nonneg (Int.natCast_nonneg _)
        (by exact_mod_cast (show 9 + (encodePayload b).length < 2 ^ (8 * 4) by omega)),
      Int.toNat_natCast]
    omega
  have hval : 12 + wrapU 64 (fromU 32 (fromBe
      (encSigned 4 (wrapS 32 ((9 + (encodePayload b).length : Nat) : Int)))))
      = (RecordBatch.encode b).length := by
    rw [hinner, fromU_of_lt (show 9 + (encodePayload b).length < 2 ^ (32 - 1) by omega),
      wrapU_of_nonneg (Int.natCast_nonneg _)
        (by exact_mod_cast (show 9 + (encodePayload b).length < 2 ^ 64 by omega)),
      Int.toNat_natCast, hlen]
    omega
  have hdec : RecordBatch.decode (RecordBatch.encode b) = .ok (backpatch b, []) := by
    have h := RecordBatch.decode_encode b hwf []
    rwa [List.append_nil] at h
  rw [readNextBatch, hdrop, if_neg (by rw [htot]; omega), if_neg (by rw [htot]; omega),
    hfield, hval, readBatchAt, if_neg (by rw [List.length_append]; omega),
    List.take_left, hdec, dbind_ok]

lemma seqCase_some (onBatch : RecordBatch → Nat → Option (List RecordBatch × Nat))
    (onStop : Option (List RecordBatch × Nat)) (batch : RecordBatch) (size : Nat) :
    seqCase onBatch onStop (.ok (some (batch, size))) = onBatch batch size := rfl

lemma seqCase_none (onBatch : RecordBatch → Nat → Option (List RecordBatch × Nat))
    (onStop : Option (List RecordBatch × Nat)) :
    seqCase onBatch onStop (.ok none) = onStop := rfl

/-- The `read_sequential` loop over a log that is a concatenation of
well-formed encoded batches, started at the boundary after `done`, computes
exactly the batch-granularity function `seqSpec` on the remaining batches
(paired with their encoded sizes), in one loop iteration per batch. -/
lemma readSeqLoop_spec (offset : Int) (maxBytes : Nat) (all : List RecordBatch) :
    ∀ (bs : List RecordBatch), bs.all batchWF = true →
    ∀ (done : List RecordBatch) (fuel total : Nat) (acc : List RecordBatch),
    all = done ++ bs → fuel ≥ bs.length + 1 →
    readSeqLoop (encodeAll all) offset maxBytes fuel (sizeAll done) total acc
      = some (seqSpec offset maxBytes
          (bs.map (fun b => (backpatch b, (RecordBatch.encode b).length)))
          (sizeAll done) total acc) := by
  intro bs
  induction bs with
  | nil =>
    intro _ done fuel total acc hall hfuel
    obtain ⟨f, rfl⟩ : ∃ f, fuel = f + 1 := ⟨fuel - 1, by omega⟩
    rw [readSeqLoop, List.map_nil, seqSpec]
    by_cases ht : total ≥ maxBytes
    · rw [if_pos ht]
    · rw [if_neg ht]
      have hrnb : readNextBatch (encodeAll all) (sizeAll done) = .ok none := by
        have hd : (encodeAll all).drop (sizeAll done) = [] := by
          rw [hall, List.append_nil, sizeAll]
          exact List.drop_length _
        have h0 : ([] : List Nat).length = 0 := rfl
        rw [readNextBatch, hd, if_pos h0]
      rw [hrnb, seqCase_none]
  | cons b bs' ih =>
    intro hwfs done fuel total acc hall hfuel
    obtain ⟨f, rfl⟩ : ∃ f, fuel = f + 1 := ⟨fuel - 1, by omega⟩
    have hb : batchWF b = true ∧ bs'.all batchWF = true := by
      simpa [List.all_cons, Bool.and_eq_true] using hwfs
    rw [readSeqLoop, List.map_cons, seqSpec]
    by_cases ht : total ≥ maxBytes
    · rw [if_pos ht, if_pos ht]
    · rw [if_neg ht, if_neg ht]
      have hrnb : readNextBatch (encodeAll all) (sizeAll done)
          = .ok (some (backpatch b, (RecordBatch.encode b).length)) := by
        apply readNextBatch_at _ _ _ (encodeAll bs') hb.1
        rw [hall, encodeAll_append, sizeAll, List.drop_left, encodeAll_cons]
      rw [hrnb, seqCase_some]
      by_cases hg : 0 < total ∧ maxBytes < total + (RecordBatch.encode b).length
      · rw [if_pos hg, if_pos hg]
      · rw [if_neg hg, if_neg hg]
        have hcursor : sizeAll done + (RecordBatch.encode b).length = sizeAll (done ++ [b]) := by
          rw [sizeAll, sizeAll, encodeAll_append, List.length_append,
            encodeAll_cons, encodeAll_nil, List.append_nil]
        rw [hcursor]
        exact ih hb.2 (done ++ [b]) f _ _
          (by rw [hall, List.append_assoc]; rfl)
          (by simp only [List.length_cons] at hfuel; omega)

lemma scenarioPayload_len (o : Int) : (encodePayload (scenarioBatch o)).length = 179 := rfl

lemma scenarioEncode_len (o : Int) : (RecordBatch.encode (scenarioBatch o)).length = 200 := by
  rw [encode_length, scenarioPayload_len]

lemma scenarioLog_len : scenarioSeg.log.length = 600 := rfl

lemma scenario_loop :
    readSeqLoop scenarioSeg.log 0 500 (scenarioSeg.log.length + 1) 0 0 []
      = some ([backpatch (scenarioBatch 0), backpatch (scenarioBatch 1)], 400) := by
  have hwfs : [scenarioBatch 0, scenarioBatch 1, scenarioBatch 2].all batchWF = true := by
    decide
  have h2 : readSeqLoop
      (encodeAll [scenarioBatch 0, scenarioBatch 1, scenarioBatch 2]) 0 500 (600 + 1) 0 0 []
      = some (seqSpec 0 500
          ([scenarioBatch 0, scenarioBatch 1, scenarioBatch 2].map
            (fun b => (backpatch b, (RecordBatch.encode b).length))) 0 0 []) :=
    readSeqLoop_spec 0 500 [scenarioBatch 0, scenarioBatch 1, scenarioBatch 2]
      [scenarioBatch 0, scenarioBatch 1, scenarioBatch 2] hwfs [] (600 + 1) 0 [] rfl
      (by simp only [List.length_cons, List.length_nil]; omega)
  have hmap : [scenarioBatch 0, scenarioBatch 1, scenarioBatch 2].map
      (fun b => (backpatch b, (RecordBatch.encode b).length))
      = [(backpatch (scenarioBatch 0), 200), (backpatch (scenarioBatch 1), 200),
          (backpatch (scenarioBatch 2), 200)] := by
    simp only [List.map_cons, List.map_nil]
    rw [scenarioEncode_len 0, scenarioEncode_len 1, scenarioEncode_len 2]
  have hspec : seqSpec 0 500
      [(backpatch (scenarioBatch 0), 200), (backpatch (scenarioBatch 1), 200),
        (backpatch (scenarioBatch 2), 200)] 0 0 []
      = ([backpatch (scenarioBatch 0), backpatch (scenarioBatch 1)], 400) := rfl
  rw [show scenarioSeg.log
      = encodeAll [scenarioBatch 0, scenarioBatch 1, scenarioBatch 2] from rfl,
    show (encodeAll [scenarioBatch 0, scenarioBatch 1, scenarioBatch 2]).length = 600
      from scenarioLog_len, h2, hmap, hspec]

lemma scenario_readSequential :
    Segment.readSequential 10 scenarioSeg 0 500
      = some (.ok [backpatch (scenarioBatch 0), backpatch (scenarioBatch 1)]) := by
  have hfind : Segment.findPhysicalPosition 10 scenarioSeg 0 = some (.ok (some 0)) := by
    decide
  have hm : Segment.readSequential 10 scenarioSeg 0 500
      = (match readSeqLoop scenarioSeg.log 0 500 (scenarioSeg.log.length + 1) 0 0 [] with
          | none => none
          | some (batches, _) => some (.ok batches)) := by
    rw [Segment.readSequential, hfind]
  rw [hm, scenario_loop]

/-- C6 (amended).  At batch granularity the `read_sequential` loop computes
`seqSpec`: batches are returned in file order; the loop stops before
returning a batch only when the running BYTE TOTAL is already positive and
adding the batch's encoded size would exceed `max_bytes` (the code's guard
is `bytes_read_total > 0`, not "at least one batch accumulated in the
result" — a batch skipped by the offset filter also arms the guard, see
`read_sequential_guard_cex`); a single oversized first batch is always
returned; on stop-due-to-limit the cursor is the start of the unreturned
batch.  The spec's concrete scenario holds: on a segment of three 200-byte
batches, `read_sequential(0, 500)` returns the first two batches and the
loop leaves the cursor at byte 400, the third batch's start. -/
theorem read_sequential_loop_spec :
    (∀ (offset : Int) (maxBytes : Nat) (done bs : List RecordBatch)
        (fuel total : Nat) (acc : List RecordBatch),
      bs.all batchWF = true → fuel ≥ bs.length + 1 →
      readSeqLoop (encodeAll (done ++ bs)) offset maxBytes fuel (sizeAll done) total acc
        = some (seqSpec offset maxBytes
            (bs.map (fun b => (backpatch b, (RecordBatch.encode b).length)))
            (sizeAll done) total acc)) ∧
    (RecordBatch.encode (scenarioBatch 0)).length = 200 ∧
    Segment.readSequential 10 scenarioSeg 0 500
      = some (.ok [backpatch (scenarioBatch 0), backpatch (scenarioBatch 1)]) ∧
    readSeqLoop scenarioSeg.log 0 500 (scenarioSeg.log.length + 1) 0 0 []
      = some ([backpatch (scenarioBatch 0), backpatch (scenarioBatch 1)], 400) :=
  ⟨fun offset maxBytes done bs fuel total acc hwfs hfuel =>
      readSeqLoop_spec offset maxBytes (done ++ bs) bs hwfs done fuel total acc rfl hfuel,
    scenarioEncode_len 0, scenario_readSequential, scenario_loop⟩

/-- C6 counterexample: on the segment `c6Seg` (batch `c6A` covering offsets
< 1, then batch `c6B` covering offsets 5), `read_sequential(3, 100)` reads
`c6A` (68 bytes, filtered out of the result as already consumed), then
stops before `c6B` because 68 + 68 > 100 — returning ZERO batches even
though `c6B` passes the offset filter, contradicting "the loop stops before
returning a batch only when at least one batch has already been accumulated
in the result". -/
theorem read_sequential_guard_cex :
    Segment.readSequential 10 c6Seg 3 100 = some (.ok []) ∧
    readSeqLoop c6Seg.log 3 100 (c6Seg.log.length + 1) 0 0 [] = some ([], 68) ∧
    (3 : Int) < wrapS 64 (c6B.baseOffset + c6B.recordsCount) := by
  refine ⟨by decide, by decide, by decide⟩

/-- Witness for the C6 theorem's general conjunct at the one-batch log
`[c6A]`. -/
theorem read_sequential_loop_spec_witness :
    ([c6A].all batchWF = true ∧ 2 ≥ [c6A].length + 1) ∧
    readSeqLoop (encodeAll ([] ++ [c6A])) 0 1000 2 (sizeAll []) 0 []
      = some (seqSpec 0 1000
          ([c6A].map (fun b => (backpatch b, (RecordBatch.encode b).length)))
          (sizeAll []) 0 []) :=
  ⟨⟨by decide, by decide⟩,
    read_sequential_loop_spec.1 0 1000 [] [c6A] 2 0 [] (by decide) (by decide)⟩
